import Mathlib

/-!
GROMACS: communication record, device management, frame centering, Ewald kernel choice,
selections and pull-coordinate expressions.

A shallow embedding of the functions and macros of

* `include/types/commrec.h`
* `src/gromacs/hardware/device_management_common.cpp`
* `src/gromacs/coordinateio/frameconverters/setcenter.cpp`
* `src/gromacs/nbnxm/nbnxm_gpu_data_mgmt.cpp`
* `src/gromacs/selection/selection.cpp`
* `src/gromacs/pulling/pullcoordexpressionparser.cpp`

followed by theorems about them.

Conventions of the embedding.

* A C `int` is an `Int`; where the source does arithmetic on `int`s the result is
  reduced to the 32-bit two's complement range with `wrapInt`.
* `real`, `float` and `double` values are rationals (`ℚ`), exact arithmetic, where the values
  are only compared or copied or the statement is about exact arithmetic; the sums of
  `selection.cpp` are formed in a type `real` of which only 0, 1 and `+` are used and nothing
  is assumed, so that they stand for the rounded floating-point sums as well.
* A C array or `std::vector` is a `List`; a read outside the array is `none`.
* A pointer that may be `NULL` is an `Option`.
-/

namespace Gromacs

/-! ## Machine integers -/

/-- The smallest value of a 32-bit `int`. -/
def INT_MIN : Int := -2147483648

/-- The largest value of a 32-bit `int`. -/
def INT_MAX : Int := 2147483647

/-- Reduction of an integer to the 32-bit two's complement range. -/
def wrapInt (x : Int) : Int := (x + 2147483648) % 4294967296 - 2147483648

/-- Reading `xs[i]` for an `int` index: `none` outside `0 ≤ i < size`. -/
def getAt? {α : Type} (xs : List α) (i : Int) : Option α :=
  if i < 0 then none else xs[i.toNat]?

/-! ## `include/types/commrec.h` -/

/-- The fields `nodeid`, `nnodes`, `masterrank` of `gmx_domdec_t` (the others are not read by
the macros below). -/
structure gmx_domdec_t where
  nodeid : Int
  nnodes : Int
  masterrank : Int
deriving DecidableEq

/-- `#define DDMASTER(dd) ((dd)->nodeid == 0)`. -/
def DDMASTER (dd : gmx_domdec_t) : Bool := dd.nodeid == 0

/-- `#define DDRANK(dd,nodeid) (nodeid)`. -/
def DDRANK (_dd : gmx_domdec_t) (nodeid : Int) : Int := nodeid

/-- `#define DDMASTERRANK(dd) (0)`. -/
def DDMASTERRANK (_dd : gmx_domdec_t) : Int := 0

/-- The `int` fields of `t_commrec`. -/
structure t_commrec where
  nodeid : Int
  nnodes : Int
  npmenodes : Int
  left : Int
  right : Int
  threadid : Int
  nthreads : Int
deriving DecidableEq

/-- `enum { epmePPONLY, epmePMEONLY, epmePMEANDPP }`: first enumerator. -/
def epmePPONLY : Int := 0

/-- `enum { epmePPONLY, epmePMEONLY, epmePMEANDPP }`: second enumerator. -/
def epmePMEONLY : Int := 1

/-- `enum { epmePPONLY, epmePMEONLY, epmePMEANDPP }`: third enumerator. -/
def epmePMEANDPP : Int := 2

/-- `#define pmeduty(cr) ((!cr->npmenodes)? 2:(cr->nodeid >= cr->nnodes-cr->npmenodes))`.
The comparison yields the `int` 1 or 0; the subtraction is an `int` subtraction. -/
def pmeduty (cr : t_commrec) : Int :=
  if cr.npmenodes = 0 then 2
  else if cr.nodeid ≥ wrapInt (cr.nnodes - cr.npmenodes) then 1 else 0

/-- The struct `gmx_ga2la_t`: the cell and the local atom number `a` of a global atom. -/
structure gmx_ga2la_t where
  cell : Int
  a : Int
deriving DecidableEq

/-- The members `nat_tot_con`, `gatindex` and `ga2la` of `gmx_domdec_t`: the number of local
atoms with the extra ones for constraints, the index from the local atoms to the global atoms,
and the table from the global atom number to the local atom number. -/
structure LocalDomainState where
  nat_tot_con : Int
  gatindex : List Int
  ga2la : List gmx_ga2la_t
deriving DecidableEq

/-- The entry of `ga2la` for a global atom that is not local: "-1 if not local". -/
def notLocal : gmx_ga2la_t := ⟨-1, -1⟩

/-- Modelled from the spec: the loop of `rebuildFromAssignment` over the resident atoms, which
is outside the sources. `residents` holds, for the local slots from `a` on, the cell and the
global id of the atom in the slot; the entry of each global id is set to its cell and slot.
The result is `none` when a global id is outside the table. -/
def fillGa2la : List (Int × Int) → Nat → List gmx_ga2la_t → Option (List gmx_ga2la_t)
  | [], _, ga2la => some ga2la
  | (cell, global_id) :: residents, a, ga2la =>
    if 0 ≤ global_id ∧ global_id.toNat < ga2la.length then
      fillGa2la residents (a + 1) (ga2la.set global_id.toNat ⟨cell, (a : Int)⟩)
    else none

/-- Modelled from the spec: `rebuildFromAssignment(groups)`, which is outside the sources: it
"replaces local state wholesale". `natoms` is the number of global atoms, `residents` the cell
and the global id of the atom in each local slot, in the order of the slots. Every entry of
`ga2la` is first "not local". -/
def rebuildFromAssignment (natoms : Nat) (residents : List (Int × Int)) :
    Option LocalDomainState :=
  match fillGa2la residents 0 (List.replicate natoms notLocal) with
  | none => none
  | some ga2la =>
    some { nat_tot_con := (residents.length : Int)
           gatindex := residents.map Prod.snd
           ga2la := ga2la }

/-- Modelled from the spec: `resolve(global_id) -> (cell, local_slot) | absent`, which is
outside the sources: the entry of the table, absent (`none`) when the entry is "not local" or
the id is outside the table. -/
def resolve (dd : LocalDomainState) (global_id : Int) : Option (Int × Int) :=
  match getAt? dd.ga2la global_id with
  | none => none
  | some entry => if entry.a = -1 then none else some (entry.cell, entry.a)

/-- The members `ncg`, `index` and `cg` of `gmx_domdec_master_t`, the global charge group
division: the number of home charge groups of each node, the index of `nnodes + 1` entries
into `cg`, and the global charge group indices. -/
structure gmx_domdec_master_t where
  ncg : List Int
  index : List Int
  cg : List Int
deriving DecidableEq

/-- The global indices of the charge groups that the assignment gives to the node `n`, in
increasing order; `owner[i]` is the node of the charge group `i`. -/
def homeChargeGroups (owner : List Int) (n : Int) : List Int :=
  (owner.enum.filter (fun entry => decide (entry.2 = n))).map (fun entry => (entry.1 : Int))

/-- Modelled from the spec: the round of the Master Distributor for one node, which is outside
the sources: the charge groups of the node are appended to `cg`, their number to `ncg`, and the
end of the block to `index`. -/
def distributeNode (owner : List Int) (ma : gmx_domdec_master_t) (n : Nat) :
    gmx_domdec_master_t :=
  let home := homeChargeGroups owner (n : Int)
  { ncg := ma.ncg ++ [(home.length : Int)]
    index := ma.index ++ [(ma.cg.length : Int) + (home.length : Int)]
    cg := ma.cg ++ home }

/-- Modelled from the spec: the Master Distributor, which is outside the sources: from the
"authoritative global particle→cell assignment" `owner` (the node of each charge group) it
produces, for the nodes `0 ... nnodes-1` in order, "the number of particle groups it owns" and
"their global ids". -/
def distributeChargeGroups (nnodes : Nat) (owner : List Int) : gmx_domdec_master_t :=
  (List.range nnodes).foldl (distributeNode owner) { ncg := [], index := [0], cg := [] }

/-- The state of the division after the rounds for the nodes `0 ... n-1`. -/
def DivisionInvariant (owner : List Int) (n : Nat) (ma : gmx_domdec_master_t) : Prop :=
  ma.ncg.length = n ∧ ma.index.length = n + 1 ∧ ma.index[0]? = some 0 ∧
  ma.index[n]? = some (ma.cg.length : Int) ∧
  (∀ k, k < n → ∃ first last count, ma.index[k]? = some first ∧ ma.index[k + 1]? = some last ∧
    ma.ncg[k]? = some count ∧ last - first = count) ∧
  ma.ncg.sum = (ma.cg.length : Int) ∧
  ma.cg.length = owner.countP (fun o => decide (0 ≤ o ∧ o < (n : Int)))

/-! ## `src/gromacs/hardware/device_management_common.cpp` -/

/-- Modelled from the spec: the declaration of `enum class DeviceStatus` is in
`device_information.h`, which is not among the sources. The source names the enumerators
`Compatible` and `Nonexistent`; every other enumerator is `Other n`. -/
inductive DeviceStatus where
  | Compatible
  | Nonexistent
  | Other (n : Nat)
deriving DecidableEq

/-- The fields of `DeviceInformation` that the functions below read. -/
structure DeviceInformation where
  status : DeviceStatus
  id : Int
deriving DecidableEq

/-- Translation of `getCompatibleDevices`: the range-for loop is a left fold over the input and
`push_back` appends at the end of `compatibleGpus`. -/
def getCompatibleDevices (deviceInfos : List DeviceInformation) : List Int :=
  deviceInfos.foldl
    (fun compatibleGpus deviceInfo =>
      if deviceInfo.status = DeviceStatus.Compatible then compatibleGpus ++ [deviceInfo.id]
      else compatibleGpus)
    []

/-- A `char` of an object representation or of a serialized stream. -/
abbrev Byte := Fin 256

/-- The low byte of a natural number. -/
def byteOf (n : Nat) : Byte := ⟨n % 256, Nat.mod_lt n (by decide)⟩

/-- The four bytes of an `int`, least significant first. -/
def encodeInt (v : Int) : List Byte :=
  let u : Nat := (v % 4294967296).toNat
  [byteOf u, byteOf (u / 256), byteOf (u / 65536), byteOf (u / 16777216)]

/-- The `int` held in four bytes, least significant first. -/
def decodeInt (bs : List Byte) : Int :=
  match bs with
  | [b0, b1, b2, b3] =>
    wrapInt ((b0.val : Int) + 256 * (b1.val : Int) + 65536 * (b2.val : Int)
      + 16777216 * (b3.val : Int))
  | _ => 0

/-- Modelled from the spec: `gmx::ISerializer` is declared outside the sources; it is modelled
as an in-memory byte stream ("count, then payload of that count"): a writing serializer appends
at the end of the stream, a reading serializer consumes from its front. -/
abbrev ByteStream := List Byte

/-- Modelled from the spec: `ISerializer::doInt` of a writing serializer appends the
`sizeof(int)` bytes of the value. -/
def doIntWrite (serializer : ByteStream) (value : Int) : ByteStream :=
  serializer ++ encodeInt value

/-- Modelled from the spec: `ISerializer::doInt` of a reading serializer takes `sizeof(int)`
bytes from the stream; it fails when the stream holds fewer. -/
def doIntRead (serializer : ByteStream) : Option (Int × ByteStream) :=
  if serializer.length < 4 then none
  else some (decodeInt (serializer.take 4), serializer.drop 4)

/-- Modelled from the spec: `ISerializer::doOpaque(data, size)` of a writing serializer appends
the `size` bytes found at `data`. -/
def doOpaqueWrite (serializer : ByteStream) (data : List Byte) (size : Nat) : ByteStream :=
  serializer ++ data.take size

/-- Modelled from the spec: `ISerializer::doOpaque(data, size)` of a reading serializer takes
`size` bytes from the stream and stores them at `data`; it fails when the stream holds fewer. -/
def doOpaqueRead (serializer : ByteStream) (size : Nat) : Option (List Byte × ByteStream) :=
  if serializer.length < size then none
  else some (serializer.take size, serializer.drop size)

/-- Translation of `serializeDeviceInformations`. A `DeviceInformation` is passed to `doOpaque`
as `sizeof(DeviceInformation)` chars, so each element of `deviceInfos` is given here by its
object representation; `sizeofDeviceInformation` is `sizeof(DeviceInformation)`.
`int numDevices = deviceInfos.size()` converts a `size_t` to `int`. -/
def serializeDeviceInformations (sizeofDeviceInformation : Nat)
    (deviceInfos : List (List Byte)) (serializer : ByteStream) : ByteStream :=
  let numDevices : Int := wrapInt (deviceInfos.length : Int)
  let serializer := doIntWrite serializer numDevices
  deviceInfos.foldl
    (fun serializer deviceInfo => doOpaqueWrite serializer deviceInfo sizeofDeviceInformation)
    serializer

/-- The loop `for (int i = 0; i < numDevices; i++)` of `deserializeDeviceInformations`, with
`remaining = numDevices - i`: each round makes one `DeviceInformation` and fills its bytes with
`doOpaque`. -/
def deserializeLoop (sizeofDeviceInformation : Nat) :
    Nat → ByteStream → Option (List (List Byte) × ByteStream)
  | 0, serializer => some ([], serializer)
  | remaining + 1, serializer =>
    match doOpaqueRead serializer sizeofDeviceInformation with
    | none => none
    | some (deviceInfo, serializer) =>
      match deserializeLoop sizeofDeviceInformation remaining serializer with
      | none => none
      | some (deviceInfos, serializer) => some (deviceInfo :: deviceInfos, serializer)

/-- Translation of `deserializeDeviceInformations`; the result is the vector together with the
rest of the stream. A negative `numDevices` makes the construction
`std::vector<...> deviceInfos(numDevices)` fail. -/
def deserializeDeviceInformations (sizeofDeviceInformation : Nat) (serializer : ByteStream) :
    Option (List (List Byte) × ByteStream) :=
  match doIntRead serializer with
  | none => none
  | some (numDevices, serializer) =>
    if numDevices < 0 then none
    else deserializeLoop sizeofDeviceInformation numDevices.toNat serializer

/-- Translation of `getDeviceCompatibilityDescription`; `none` when `deviceInfos` is indexed
outside its bounds. `c_deviceStateString` is the table of that name, declared outside the
sources. `static_cast<int>(deviceInfos.size())` converts a `size_t` to `int`; the index of
`deviceInfos[deviceId]` is converted to `size_t`, which takes a negative `deviceId` beyond the
end of the vector. -/
def getDeviceCompatibilityDescription (c_deviceStateString : DeviceStatus → String)
    (deviceInfos : List DeviceInformation) (deviceId : Int) : Option String :=
  if deviceId ≥ wrapInt (deviceInfos.length : Int) then
    some (c_deviceStateString DeviceStatus.Nonexistent)
  else
    match getAt? deviceInfos deviceId with
    | none => none
    | some deviceInfo => some (c_deviceStateString deviceInfo.status)

/-! ## `src/gromacs/coordinateio/frameconverters/setcenter.cpp` -/

/-- An `rvec` or `RVec`: `DIM = 3` reals. -/
abbrev RVec := Fin 3 → ℚ

/-- The box `matrix`: `DIM` rows of `DIM` reals. -/
abbrev BoxMatrix := Fin 3 → Fin 3 → ℚ

/-- The members `box` and `x` of `t_trxframe`; `x` holds the coordinates of the `natoms` atoms
of the frame. -/
structure t_trxframe where
  box : BoxMatrix
  x : List RVec

/-- The member `natoms` of `t_trxframe`: the number of coordinates in `x`. -/
def t_trxframe.natoms (input : t_trxframe) : Nat := input.x.length

/-- Modelled from the spec: `enum class CenteringType`, declared outside the sources, with the
three enumerators that the constructor of `SetCenter` handles. -/
inductive CenteringType where
  | Rectangular
  | Triclinic
  | Zero
deriving DecidableEq

/-- Modelled from the spec: the enumerators of `FrameConverterFlags`, declared outside the
sources, that the constructor of `SetCenter` names. -/
inductive FrameConverterFlags where
  | SystemIsCenteredInTriclinicBox
  | SystemIsCenteredInRectangularBox
  | SystemIsCenteredInZeroBox
deriving DecidableEq

/-- Modelled from the spec: what `convertFrame` reads of the `Selection` `center_`, through
accessors declared outside the sources: `atomCount()` and, for the position `i`,
`position(i).refId()` (`refIds[i]`; there is no position `i` outside the list). -/
structure CenterSelection where
  atomCount : Int
  refIds : List Int
deriving DecidableEq

/-- The members of `SetCenter`. -/
structure SetCenter where
  center_ : CenterSelection
  centerFlag_ : CenteringType
  guarantee_ : FrameConverterFlags
deriving DecidableEq

/-- Translation of the constructor `SetCenter::SetCenter`. -/
def SetCenter.create (center : CenterSelection) (centerFlag : CenteringType) : SetCenter :=
  { center_ := center
    centerFlag_ := centerFlag
    guarantee_ :=
      match centerFlag with
      | CenteringType.Triclinic => FrameConverterFlags.SystemIsCenteredInTriclinicBox
      | CenteringType.Rectangular => FrameConverterFlags.SystemIsCenteredInRectangularBox
      | CenteringType.Zero => FrameConverterFlags.SystemIsCenteredInZeroBox }

/-- The loop `for (int m = 0; m < DIM; m++)` of `convertFrame` for one atom with coordinates
`xpos`; the state is `(cmin, cmax)`. -/
def scanComponents (xpos : RVec) (state : RVec × RVec) : RVec × RVec :=
  (List.finRange 3).foldl
    (fun (state : RVec × RVec) m =>
      if xpos m < state.1 m then (Function.update state.1 m (xpos m), state.2)
      else if xpos m > state.2 m then (state.1, Function.update state.2 m (xpos m))
      else state)
    state

/-- The loop `for (int i = 0; i < center_.atomCount(); i++)` of `convertFrame`, `count` rounds
from `i` on; the state is `(cmin, cmax)`. -/
def scanSelection (center : CenterSelection) (x : List RVec) :
    Nat → Nat → RVec × RVec → Option (RVec × RVec)
  | _, 0, state => some state
  | i, count + 1, state =>
    match getAt? center.refIds i with
    | none => none
    | some pos =>
      match getAt? x pos with
      | none => none
      | some xpos => scanSelection center x (i + 1) count (scanComponents xpos state)

/-- The first part of `convertFrame`: `cmin` and `cmax` after the scan of the selection, both
started at the coordinates of `position(0)`. -/
def selectionExtent (self : SetCenter) (input : t_trxframe) : Option (RVec × RVec) :=
  match getAt? self.center_.refIds 0 with
  | none => none
  | some pos0 =>
    match getAt? input.x pos0 with
    | none => none
    | some x0 => scanSelection self.center_ input.x 0 self.center_.atomCount.toNat (x0, x0)

/-- Translation of `SetCenter::convertFrame`: the frame after the call, `none` when an array is
read outside its bounds. `calc_box_center` is the function of that name, defined outside the
sources: the box centre for a centering type and a box. -/
def convertFrame (calc_box_center : CenteringType → BoxMatrix → RVec) (self : SetCenter)
    (input : t_trxframe) : Option t_trxframe :=
  let localBoxCenter : RVec := calc_box_center self.centerFlag_ input.box
  match selectionExtent self input with
  | none => none
  | some (cmin, cmax) =>
    let shift : RVec := fun m => localBoxCenter m - (cmin m + cmax m) * (1 / 2)
    some { input with x := input.x.map (fun xi => fun m => xi m + shift m) }

/-- The `m`-coordinates of the atoms of the selection in the coordinates `x`: of the atoms
`position(i).refId()` for `0 <= i < atomCount()`. -/
def selectionCoordinates (center : CenterSelection) (x : List RVec) (m : Fin 3) : List ℚ :=
  (List.range center.atomCount.toNat).filterMap
    (fun (i : Nat) =>
      match getAt? center.refIds (i : Int) with
      | none => none
      | some pos => (getAt? x pos).map (fun xpos => xpos m))

/-- The value `v` is the minimum of the list. -/
def IsMinimumOf (v : ℚ) (values : List ℚ) : Prop := v ∈ values ∧ ∀ w ∈ values, v ≤ w

/-- The value `v` is the maximum of the list. -/
def IsMaximumOf (v : ℚ) (values : List ℚ) : Prop := v ∈ values ∧ ∀ w ∈ values, w ≤ v

/-- The selection is not empty and its reference ids are atom indices of a frame of `natoms`
atoms. -/
def ValidCenter (center : CenterSelection) (natoms : Nat) : Prop :=
  0 < center.atomCount ∧
  ∀ i : Nat, (i : Int) < center.atomCount →
    ∃ pos, getAt? center.refIds (i : Int) = some pos ∧ 0 ≤ pos ∧ pos < natoms

/-- The scan of `convertFrame` on one coordinate. -/
def scanStep (state : ℚ × ℚ) (v : ℚ) : ℚ × ℚ :=
  if v < state.1 then (v, state.2) else if v > state.2 then (state.1, v) else state

/-- The coordinates of the atom `position(i).refId()` (zero when there is none). -/
def selectedAtom (center : CenterSelection) (x : List RVec) (i : Nat) : RVec :=
  match getAt? center.refIds (i : Int) with
  | none => 0
  | some pos => (getAt? x pos).getD 0

/-- A box centre for the examples: half the diagonal of the box, whatever the centering type. -/
def halfDiagonal : CenteringType → BoxMatrix → RVec :=
  fun _ box m => box m m / 2

/-- A frame of three atoms in a box with diagonal (10, 10, 10). -/
def exampleFrame : t_trxframe :=
  { box := fun i j => if i = j then 10 else 0
    x := [![1, 5, 0], ![0, 0, 0], ![3, -1, 2]] }

/-- A centre selection of the atoms 2 and 0. -/
def exampleCenter : SetCenter :=
  SetCenter.create ⟨2, [2, 0]⟩ CenteringType.Rectangular

/-- A centre selection of one position, with the reference id 0, that holds three atoms
(`posCount() = 1`, `atomCount() = 3`). -/
def onePositionOfThreeAtoms : SetCenter :=
  SetCenter.create ⟨3, [0]⟩ CenteringType.Rectangular

/-! ## `src/gromacs/nbnxm/nbnxm_gpu_data_mgmt.cpp` -/

/-- The cut-off radii of `interaction_const_t`, the only fields that
`nbnxn_gpu_pick_ewald_kernel_type` reads. -/
structure interaction_const_t where
  rcoulomb : ℚ
  rvdw : ℚ
deriving DecidableEq

/-- Modelled from the spec: the electrostatics kernel enumerators are declared outside the
sources; these are the four that `nbnxn_gpu_pick_ewald_kernel_type` returns. -/
inductive eelType where
  | eelTypeEWALD_TAB
  | eelTypeEWALD_TAB_TWIN
  | eelTypeEWALD_ANA
  | eelTypeEWALD_ANA_TWIN
deriving DecidableEq

/-- The message that `nbnxn_gpu_pick_ewald_kernel_type` passes to `gmx_incons`. -/
def bothEwaldKernelsRequested : String :=
  "Both analytical and tabulated Ewald GPU non-bonded kernels requested through environment variables."

/-- Translation of `nbnxn_gpu_pick_ewald_kernel_type`. `getenv` is the process environment;
`gmx_incons` does not return and is the `error` result; the `fprintf(debug, ...)` lines write a
log only and are left out. -/
def nbnxn_gpu_pick_ewald_kernel_type (getenv : String → Option String)
    (ic : interaction_const_t) : Except String eelType :=
  let bTwinCut : Bool := ic.rcoulomb != ic.rvdw
  let bForceAnalyticalEwald : Bool := (getenv "GMX_GPU_NB_ANA_EWALD").isSome
  let bForceTabulatedEwald : Bool := (getenv "GMX_GPU_NB_TAB_EWALD").isSome
  if bForceAnalyticalEwald && bForceTabulatedEwald then
    Except.error bothEwaldKernelsRequested
  else
    let bUseAnalyticalEwald : Bool :=
      if bForceAnalyticalEwald then true
      else if bForceTabulatedEwald then false
      else true
    if !bTwinCut && (getenv "GMX_GPU_NB_EWALD_TWINCUT").isNone then
      Except.ok (if bUseAnalyticalEwald then eelType.eelTypeEWALD_ANA
        else eelType.eelTypeEWALD_TAB)
    else
      Except.ok (if bUseAnalyticalEwald then eelType.eelTypeEWALD_ANA_TWIN
        else eelType.eelTypeEWALD_TAB_TWIN)

/-- An environment in which none of the variables is set. -/
def emptyEnvironment : String → Option String := fun _ => none

/-- An environment in which exactly the listed variables are set (to the empty string). -/
def environmentOf (names : List String) : String → Option String :=
  fun name => if name ∈ names then some "" else none

/-- The members `scale` and `tableF` of `EwaldCorrectionTables`. -/
structure EwaldCorrectionTables where
  scale : ℚ
  tableF : List ℚ
deriving DecidableEq

/-- The members of `NBParamGpu` that `init_ewald_coulomb_force_table` reads and writes.
`coulomb_tab` is a device pointer: `none` is the null pointer, `some h` the buffer with the
handle `h`. (The texture object `coulomb_tab_texobj`, passed along with the pointer, is left
out.) -/
structure NBParamGpu where
  coulomb_tab : Option Nat
  coulomb_tab_scale : ℚ
deriving DecidableEq

/-- Modelled from the spec: the device memory behind a `DeviceContext`, which is outside the
sources: the lookup tables that are alive, each with its handle and its content, the next free
handle, and the record of the calls of `destroyParamLookupTable` (the pointer each call was
given). -/
structure DeviceMemory where
  tables : List (Nat × List ℚ)
  nextHandle : Nat
  destroyCalls : List (Option Nat)
deriving DecidableEq

/-- Modelled from the spec: `destroyParamLookupTable`, defined outside the sources: it releases
the table that the pointer refers to. -/
def destroyParamLookupTable (coulomb_tab : Option Nat) (memory : DeviceMemory) : DeviceMemory :=
  { memory with
    tables := memory.tables.filter (fun table => decide (some table.1 ≠ coulomb_tab))
    destroyCalls := memory.destroyCalls ++ [coulomb_tab] }

/-- Modelled from the spec: `initParamLookupTable`, defined outside the sources: it allocates a
new table on the device, fills it with the `numElem` first values of the host data and stores
its address in the pointer. -/
def initParamLookupTable (hostData : List ℚ) (numElem : Nat) (memory : DeviceMemory) :
    Option Nat × DeviceMemory :=
  (some memory.nextHandle,
   { memory with
     tables := memory.tables ++ [(memory.nextHandle, hostData.take numElem)]
     nextHandle := memory.nextHandle + 1 })

/-- Translation of `init_ewald_coulomb_force_table`: the parameters and the device memory after
the call. -/
def init_ewald_coulomb_force_table (tables : EwaldCorrectionTables) (nbp : NBParamGpu)
    (memory : DeviceMemory) : NBParamGpu × DeviceMemory :=
  let memory :=
    if nbp.coulomb_tab.isNone then destroyParamLookupTable nbp.coulomb_tab memory
    else memory
  let nbp := { nbp with coulomb_tab_scale := tables.scale }
  let result := initParamLookupTable tables.tableF tables.tableF.length memory
  ({ nbp with coulomb_tab := result.1 }, result.2)

/-! ## `src/gromacs/selection/selection.cpp` -/

/-- Modelled from the spec: `e_coverfrac_t` is declared outside the sources; `CFRAC_NONE` is the
enumerator the source names, `CFRAC_SOLIDANGLE` stands for a requested covered fraction. -/
inductive e_coverfrac_t where
  | CFRAC_NONE
  | CFRAC_SOLIDANGLE
deriving DecidableEq

/-- The members of `Selection` that `initCoveredFraction` reads and writes. `SelElem` is the
type `t_selelem` of the root element, `rootElement_ = none` is the `NULL` pointer. -/
structure CoveredFractionState (SelElem : Type) where
  rootElement_ : Option SelElem
  coveredFractionType_ : e_coverfrac_t
  coveredFraction_ : ℚ
  averageCoveredFraction_ : ℚ
  bDynamicCoveredFraction_ : Bool

/-- The accessor `Selection::isCoveredFractionDynamic()`. -/
def CoveredFractionState.isCoveredFractionDynamic {SelElem : Type}
    (sel : CoveredFractionState SelElem) : Bool :=
  sel.bDynamicCoveredFraction_

/-- Translation of `Selection::initCoveredFraction`: the returned `bool` and the selection
after the call. `can_estimate_cover` is `_gmx_selelem_can_estimate_cover`, defined outside
the sources. -/
def initCoveredFraction {SelElem : Type} (can_estimate_cover : SelElem → Bool)
    (sel : CoveredFractionState SelElem) (type : e_coverfrac_t) :
    Bool × CoveredFractionState SelElem :=
  let sel := { sel with coveredFractionType_ := type }
  let sel :=
    match decide (type = e_coverfrac_t.CFRAC_NONE), sel.rootElement_ with
    | true, _ => { sel with bDynamicCoveredFraction_ := false }
    | false, none => { sel with bDynamicCoveredFraction_ := false }
    | false, some rootElement =>
      if !can_estimate_cover rootElement then
        { sel with coveredFractionType_ := e_coverfrac_t.CFRAC_NONE,
                   bDynamicCoveredFraction_ := false }
      else
        { sel with bDynamicCoveredFraction_ := true }
  let sel := { sel with coveredFraction_ := if sel.bDynamicCoveredFraction_ then 0 else 1 }
  let sel := { sel with averageCoveredFraction_ := sel.coveredFraction_ }
  (decide (type = e_coverfrac_t.CFRAC_NONE)
      || decide (sel.coveredFractionType_ ≠ e_coverfrac_t.CFRAC_NONE), sel)

/-- The mass `m` and the charge `q` of a `t_atom`. The type `real` is GROMACS' floating-point
type (`float` or `double` by the build configuration); in this section it is any type with a
0, a 1 and an addition, and nothing is assumed of the addition, so that the rounding of every
`+=` is covered. -/
structure t_atom (real : Type) where
  m : real
  q : real
deriving DecidableEq

/-- The array `top->atoms.atom` of a `t_topology`. -/
structure t_topology (real : Type) where
  atoms : List (t_atom real)
deriving DecidableEq

/-- A pointer member `mass_` or `charge_`: `NULL`, the same array as `originalMass_` or
`originalCharge_`, or an array of its own. -/
inductive RealArrayPointer (real : Type) where
  | null
  | original
  | own (values : List real)
deriving DecidableEq

/-- The members of `Selection` that `initializeMassesAndCharges` reads and writes:
`posCount` is `posCount()`, `mapb_index` is `rawPositions_.m.mapb.index`, `g_index` is
`rawPositions_.g->index`, `isDynamic` is `isDynamic()` and `efDynamicMask` is
`hasFlag(efDynamicMask)`. -/
structure Selection (real : Type) where
  posCount : Nat
  mapb_index : List Int
  g_index : List Int
  isDynamic : Bool
  efDynamicMask : Bool
  originalMass_ : List real
  originalCharge_ : List real
  mass_ : RealArrayPointer real
  charge_ : RealArrayPointer real
deriving DecidableEq

/-- Reading `mass_[b]`. -/
def Selection.mass {real : Type} (sel : Selection real) (b : Nat) : Option real :=
  match sel.mass_ with
  | RealArrayPointer.null => none
  | RealArrayPointer.original => sel.originalMass_[b]?
  | RealArrayPointer.own values => values[b]?

/-- Reading `charge_[b]`. -/
def Selection.charge {real : Type} (sel : Selection real) (b : Nat) : Option real :=
  match sel.charge_ with
  | RealArrayPointer.null => none
  | RealArrayPointer.original => sel.originalCharge_[b]?
  | RealArrayPointer.own values => values[b]?

/-- The inner loop `for (i = ...; i < rawPositions_.m.mapb.index[b+1]; ++i)` of
`initializeMassesAndCharges`, `count` rounds from `i` on; `acc` is
`(originalMass_[b], originalCharge_[b])` and each round does the two `+=` in `real`. -/
def sumAtoms {real : Type} [Add real] (sel : Selection real) (top : t_topology real) :
    Int → Nat → real × real → Option (real × real)
  | _, 0, acc => some acc
  | i, count + 1, acc =>
    match getAt? sel.g_index i with
    | none => none
    | some index =>
      match getAt? top.atoms index with
      | none => none
      | some atom => sumAtoms sel top (i + 1) count (acc.1 + atom.m, acc.2 + atom.q)

/-- The body of the first loop of `initializeMassesAndCharges` for the position `b`: the
values stored in `originalMass_[b]` and `originalCharge_[b]`. -/
def positionMassAndCharge {real : Type} [Zero real] [One real] [Add real]
    (sel : Selection real) (top : Option (t_topology real)) (b : Nat) : Option (real × real) :=
  match top with
  | some top =>
    match getAt? sel.mapb_index b, getAt? sel.mapb_index (b + 1) with
    | some first, some last => sumAtoms sel top first (last - first).toNat (0, 0)
    | _, _ => none
  | none => some (1, 0)

/-- The first loop `for (int b = 0; b < posCount(); ++b)` of `initializeMassesAndCharges`,
`count` rounds from `b` on: the pairs `(originalMass_[b], originalCharge_[b])` in order. -/
def originalMassesAndCharges {real : Type} [Zero real] [One real] [Add real]
    (sel : Selection real) (top : Option (t_topology real)) :
    Nat → Nat → Option (List (real × real))
  | _, 0 => some []
  | b, count + 1 =>
    match positionMassAndCharge sel top b with
    | none => none
    | some massAndCharge =>
      match originalMassesAndCharges sel top (b + 1) count with
      | none => none
      | some rest => some (massAndCharge :: rest)

/-- Translation of `Selection::initializeMassesAndCharges`; `top = none` is `top == NULL`.
The result is `none` when an array is read outside its bounds. -/
def initializeMassesAndCharges {real : Type} [Zero real] [One real] [Add real]
    (sel : Selection real) (top : Option (t_topology real)) : Option (Selection real) :=
  match originalMassesAndCharges sel top 0 sel.posCount with
  | none => none
  | some original =>
    let sel := { sel with originalMass_ := original.map Prod.fst,
                          originalCharge_ := original.map Prod.snd }
    if sel.isDynamic && !sel.efDynamicMask then
      some { sel with
        mass_ := RealArrayPointer.own
          ((List.range sel.posCount).map (fun b => sel.originalMass_.getD b 0)),
        charge_ := RealArrayPointer.own
          ((List.range sel.posCount).map (fun b => sel.originalCharge_.getD b 0)) }
    else
      some { sel with mass_ := RealArrayPointer.original,
                      charge_ := RealArrayPointer.original }

/-- The mass `top->atoms.atom[g->index[i]].m` (0 when an index is outside its array). -/
def atomMass {real : Type} [Zero real] (sel : Selection real) (top : t_topology real)
    (i : Int) : real :=
  match getAt? sel.g_index i with
  | none => 0
  | some index =>
    match getAt? top.atoms index with
    | none => 0
    | some atom => atom.m

/-- The charge `top->atoms.atom[g->index[i]].q` (0 when an index is outside its array). -/
def atomCharge {real : Type} [Zero real] (sel : Selection real) (top : t_topology real)
    (i : Int) : real :=
  match getAt? sel.g_index i with
  | none => 0
  | some index =>
    match getAt? top.atoms index with
    | none => 0
    | some atom => atom.q

/-- The sum of a list of `real`s in the arithmetic of `real`: the values are added one after
the other, in the order of the list, to a `real` that starts at 0. With exact arithmetic this
is the mathematical sum; with floating-point arithmetic each addition rounds. -/
def realSum {real : Type} [Zero real] [Add real] (values : List real) : real :=
  values.foldl (fun sum value => sum + value) 0

/-- The indices `i` with `first <= i < last`, in increasing order. -/
def blockIndices (first last : Int) : List Int :=
  (List.range (last - first).toNat).map (fun (k : Nat) => first + (k : Int))

/-- The index arrays of the selection are consistent with the topology: `mapb.index` has the
entries `0 ... posCount()`, and every `i` in a block is an index of `g->index` whose entry is
an index of `top->atoms.atom`. -/
def ValidFor {real : Type} (sel : Selection real) (top : t_topology real) : Prop :=
  ∀ b : Nat, b < sel.posCount →
    ∃ first last, getAt? sel.mapb_index b = some first ∧
      getAt? sel.mapb_index (b + 1) = some last ∧
      ∀ i : Int, first ≤ i → i < last →
        ∃ index atom, getAt? sel.g_index i = some index ∧ getAt? top.atoms index = some atom

/-- A selection of two positions: the atoms 0 and 2, and the atom 1. -/
def exampleSelection : Selection ℚ :=
  { posCount := 2, mapb_index := [0, 2, 3], g_index := [0, 2, 1], isDynamic := true,
    efDynamicMask := false, originalMass_ := [], originalCharge_ := [],
    mass_ := RealArrayPointer.null, charge_ := RealArrayPointer.null }

/-- A topology of three atoms. -/
def exampleTopology : t_topology ℚ :=
  { atoms := [⟨1, 1 / 2⟩, ⟨12, 0⟩, ⟨16, -1 / 2⟩] }

/-- The number of bits of `a` (for `a` below `2 ^ fuel`). -/
def bitLength : Nat → Nat → Nat
  | 0, _ => 0
  | fuel + 1, a => if a = 0 then 0 else bitLength fuel (a / 2) + 1

/-- Rounding of an integer to a significand of `p` bits, to nearest with ties to even: the
`e` low bits beyond the significand are dropped and the rest is rounded up when they exceed
half a unit, or equal it with an odd rest. (For integers below `2 ^ 64` in absolute value.) -/
def roundSignificand (p : Nat) (n : Int) : Int :=
  let a := n.natAbs
  if a < 2 ^ p then n
  else
    let e := bitLength 64 a - p
    let q := a / 2 ^ e
    let r := a % 2 ^ e
    let half := 2 ^ (e - 1)
    let rounded := if r < half then q else if r > half then q + 1
      else if q % 2 = 0 then q else q + 1
    Int.sign n * ((rounded * 2 ^ e : Nat) : Int)

/-- An arithmetic for the examples: the integer values of IEEE single precision (`float`, a
significand of 24 bits) with its addition, the exact sum rounded to nearest, ties to even.
(Overflow does not occur at the values of the examples.) -/
structure IntegralFloat where
  val : Int
deriving DecidableEq

instance : Zero IntegralFloat := ⟨⟨0⟩⟩

instance : One IntegralFloat := ⟨⟨1⟩⟩

instance : Add IntegralFloat := ⟨fun a b => ⟨roundSignificand 24 (a.val + b.val)⟩⟩

/-- A selection of one position that holds the atoms 0, 1 and 2. -/
def roundingSelection : Selection IntegralFloat :=
  { posCount := 1, mapb_index := [0, 3], g_index := [0, 1, 2], isDynamic := false,
    efDynamicMask := false, originalMass_ := [], originalCharge_ := [],
    mass_ := RealArrayPointer.null, charge_ := RealArrayPointer.null }

/-- A topology of three atoms with the masses 16777216, 1 and 1. -/
def roundingTopology : t_topology IntegralFloat :=
  { atoms := [⟨⟨16777216⟩, ⟨0⟩⟩, ⟨⟨1⟩, ⟨1⟩⟩, ⟨⟨1⟩, ⟨2⟩⟩] }

/-! ## `src/gromacs/pulling/pullcoordexpressionparser.cpp` -/

/-- Modelled from the spec: `mu::Parser` of the muparser library, which is outside the sources:
the expression set with `SetExpr` and the variables defined with `DefineVar(name, address)`, in
the order of definition. An address is the index of an element of `variableValues_`. -/
structure MuParser where
  expr : String
  vars : List (String × Nat)
deriving DecidableEq

/-- The members of `PullCoordExpressionParser`; `parser_ = none` is the null `unique_ptr`. -/
structure PullCoordExpressionParser where
  expression_ : String
  parser_ : Option MuParser
  variableValues_ : List ℚ
deriving DecidableEq

/-- The values that the defined variables point at, read at evaluation time; `none` when an
address is outside the memory. -/
def readVariables : List (String × Nat) → List ℚ → Option (List (String × ℚ))
  | [], _ => some []
  | (name, address) :: vars, memory =>
    match memory[address]? with
    | none => none
    | some value =>
      match readVariables vars memory with
      | none => none
      | some bound => some ((name, value) :: bound)

/-- Modelled from the spec: `mu::Parser::Eval()`. `muEval expr bound` is the value muparser
gives the expression `expr` when the variables hold the values `bound`; the variables are read
through their addresses at the time of the call. -/
def MuParser.Eval (muEval : String → List (String × ℚ) → ℚ) (parser : MuParser)
    (memory : List ℚ) : Option ℚ :=
  match readVariables parser.vars memory with
  | none => none
  | some bound => some (muEval parser.expr bound)

/-- `std::vector<double>::resize(n)`: the first `n` elements are kept, new ones are zero. -/
def resize (xs : List ℚ) (n : Nat) : List ℚ :=
  xs.take n ++ List.replicate (n - xs.length) 0

/-- The text of the `GMX_ASSERT` in `PullCoordExpressionParser::evaluate`. -/
def assertionVariablesSize : String :=
  "The size of variables should match the size passed at the first call of this method"

/-- Translation of `PullCoordExpressionParser::initializeParser`. `HAVE_MUPARSER` is the
configuration macro; `std::to_string(n + 1)` is the decimal numeral of `n + 1`. The count of
variables is a natural number here (the source passes a size as `int`). -/
def initializeParser (HAVE_MUPARSER : Bool) (self : PullCoordExpressionParser)
    (numVariables : Nat) : Except String PullCoordExpressionParser :=
  if HAVE_MUPARSER then
    let parser : MuParser := { expr := "", vars := [] }
    let parser : MuParser := { parser with expr := self.expression_ }
    let variableValues := resize self.variableValues_ numVariables
    let state := (List.range numVariables).foldl
      (fun (state : List ℚ × MuParser) n =>
        let variableValues := state.1.set n 0
        let name := "x" ++ toString (n + 1)
        (variableValues, { state.2 with vars := state.2.vars ++ [(name, n)] }))
      (variableValues, parser)
    Except.ok { self with parser_ := some state.2, variableValues_ := state.1 }
  else
    Except.error "Can not use transformation pull coordinate without muparser"

/-- Translation of `PullCoordExpressionParser::evaluate`: the value returned and the object
after the call, or the assertion that failed. `std::copy` writes `values` over the front of
`variableValues_`. (`values` is the argument `variables` of the source.) -/
def evaluate (HAVE_MUPARSER : Bool) (muEval : String → List (String × ℚ) → ℚ)
    (self : PullCoordExpressionParser) (values : List ℚ) :
    Except String (ℚ × PullCoordExpressionParser) :=
  if HAVE_MUPARSER then
    match (if self.parser_.isNone then initializeParser HAVE_MUPARSER self values.length
           else Except.ok self) with
    | Except.error e => Except.error e
    | Except.ok self =>
      if values.length ≠ self.variableValues_.length then
        Except.error assertionVariablesSize
      else
        let self := { self with
          variableValues_ := values ++ self.variableValues_.drop values.length }
        match self.parser_ with
        | none => Except.error "parser_ is null"
        | some parser =>
          match parser.Eval muEval self.variableValues_ with
          | none => Except.error "variable outside variableValues_"
          | some value => Except.ok (value, self)
  else
    Except.error "evaluate() should not be called without muparser"

/-- A run of calls of `evaluate` on one object, one per list of values, in order. -/
def evaluateAll (HAVE_MUPARSER : Bool) (muEval : String → List (String × ℚ) → ℚ) :
    PullCoordExpressionParser → List (List ℚ) → Except String PullCoordExpressionParser
  | self, [] => Except.ok self
  | self, values :: calls =>
    match evaluate HAVE_MUPARSER muEval self values with
    | Except.error e => Except.error e
    | Except.ok (_, self) => evaluateAll HAVE_MUPARSER muEval self calls

/-- The names `x1 ... xn`. -/
def variableNames (n : Nat) : List String :=
  (List.range n).map (fun k => "x" ++ toString (k + 1))

/-- The variables `x1 ... xn` holding the values of a call: `x(k+1)` holds `values[k]`. -/
def expectedBindings (values : List ℚ) : List (String × ℚ) :=
  values.enum.map (fun kv => ("x" ++ toString (kv.1 + 1), kv.2))

/-- The state of a parser object after its first `evaluate` with `n` values: the parser exists,
holds the expression and the variables `x1 ... xn` at the addresses `0 ... n-1`, and
`variableValues_` has `n` elements. -/
def InitializedFor (self : PullCoordExpressionParser) (expression : String) (n : Nat) : Prop :=
  self.expression_ = expression ∧
  self.parser_ = some ⟨expression, (List.range n).map (fun k => ("x" ++ toString (k + 1), k))⟩ ∧
  self.variableValues_.length = n

/-- An evaluator for the examples: the sum of the values of the variables. -/
def sumOfVariables : String → List (String × ℚ) → ℚ :=
  fun _ bound => (bound.map Prod.snd).sum

/-! ## Theorems -/

/-! ### Helper lemmas -/

theorem wrapInt_of_inRange (x : Int) (h1 : INT_MIN ≤ x) (h2 : x ≤ INT_MAX) : wrapInt x = x := by
  unfold wrapInt
  unfold INT_MIN at h1
  unfold INT_MAX at h2
  omega

theorem getCompatibleDevices_foldl (deviceInfos : List DeviceInformation) (acc : List Int) :
    deviceInfos.foldl
      (fun compatibleGpus deviceInfo =>
        if deviceInfo.status = DeviceStatus.Compatible then compatibleGpus ++ [deviceInfo.id]
        else compatibleGpus)
      acc
    = acc ++ (deviceInfos.filter (fun d => decide (d.status = DeviceStatus.Compatible))).map
        (fun d => d.id) := by
  induction deviceInfos generalizing acc with
  | nil => simp
  | cons d ds ih =>
    simp only [List.foldl_cons, ih]
    by_cases h : d.status = DeviceStatus.Compatible
    · simp [h, List.filter_cons]
    · simp [h, List.filter_cons]

theorem exists_nodeid_zero (ids : List Int) (n : Nat) (hn : 1 ≤ n) (hlen : ids.length = n)
    (hrange : ∀ i ∈ ids, 0 ≤ i ∧ i < n) (hnd : ids.Nodup) : (0 : Int) ∈ ids := by
  classical
  have hinj : ∀ a ∈ ids, ∀ b ∈ ids, Int.toNat a = Int.toNat b → a = b := by
    intro a ha b hb hab
    have := (hrange a ha).1
    have := (hrange b hb).1
    omega
  have hnd2 : (ids.map Int.toNat).Nodup := by
    rw [List.nodup_map_iff_inj_on hnd]
    exact hinj
  have hsub : (ids.map Int.toNat).toFinset ⊆ Finset.range n := by
    intro k hk
    simp only [List.mem_toFinset, List.mem_map] at hk
    obtain ⟨a, ha, rfl⟩ := hk
    have := hrange a ha
    simp only [Finset.mem_range]
    omega
  have hcard : (ids.map Int.toNat).toFinset.card = n := by
    rw [List.toFinset_card_of_nodup hnd2]
    simp [hlen]
  have heq : (ids.map Int.toNat).toFinset = Finset.range n :=
    Finset.eq_of_subset_of_card_le hsub (by simp [hcard])
  have h0 : 0 ∈ (ids.map Int.toNat).toFinset := by
    rw [heq]
    simp only [Finset.mem_range]
    omega
  simp only [List.mem_toFinset, List.mem_map] at h0
  obtain ⟨a, ha, ha0⟩ := h0
  have := (hrange a ha).1
  have : a = 0 := by omega
  subst this
  exact ha

/-! ### C1 -/

/-- C1: in a decomposition of `nnodes ≥ 1` nodes whose `nodeid`s are pairwise distinct and lie
in `[0, nnodes)`, exactly one node passes `DDMASTER`, and a node passes `DDMASTER` exactly when
its `DDRANK` equals `DDMASTERRANK`. -/
theorem ddmaster_exactly_one (nodes : List gmx_domdec_t) (nnodes : Int)
    (hn : 1 ≤ nnodes)
    (hlen : (nodes.length : Int) = nnodes)
    (hrange : ∀ dd ∈ nodes, 0 ≤ dd.nodeid ∧ dd.nodeid < nnodes)
    (hdistinct : nodes.Pairwise (fun a b => a.nodeid ≠ b.nodeid)) :
    nodes.countP DDMASTER = 1 ∧
    ∀ dd ∈ nodes, (DDMASTER dd = true ↔ DDRANK dd dd.nodeid = DDMASTERRANK dd) := by
  have hnd : (nodes.map (fun dd => dd.nodeid)).Nodup := by
    unfold List.Nodup
    rw [List.pairwise_map]
    exact hdistinct
  have hcount : nodes.countP DDMASTER = (nodes.map (fun dd => dd.nodeid)).count 0 := by
    rw [List.count, List.countP_map]
    rfl
  have hmem : (0 : Int) ∈ nodes.map (fun dd => dd.nodeid) := by
    apply exists_nodeid_zero _ nodes.length
    · omega
    · simp
    · intro i hi
      simp only [List.mem_map] at hi
      obtain ⟨dd, hdd, rfl⟩ := hi
      have := hrange dd hdd
      omega
    · exact hnd
  refine ⟨?_, ?_⟩
  · rw [hcount]
    exact List.count_eq_one_of_mem hnd hmem
  · intro dd _
    simp [DDMASTER, DDRANK, DDMASTERRANK]

/-- Witness of `ddmaster_exactly_one`: three nodes with ids 2, 0, 1. -/
theorem ddmaster_exactly_one_witness :
    [(⟨2, 3, 0⟩ : gmx_domdec_t), ⟨0, 3, 0⟩, ⟨1, 3, 0⟩].countP DDMASTER = 1 ∧
    ∀ dd ∈ [(⟨2, 3, 0⟩ : gmx_domdec_t), ⟨0, 3, 0⟩, ⟨1, 3, 0⟩],
      (DDMASTER dd = true ↔ DDRANK dd dd.nodeid = DDMASTERRANK dd) :=
  ddmaster_exactly_one [⟨2, 3, 0⟩, ⟨0, 3, 0⟩, ⟨1, 3, 0⟩] 3 (by decide) (by decide)
    (by decide) (by decide)

/-! ### C2 -/

/-- C2: `pmeduty(cr)` is 2 (`epmePMEANDPP`) when `npmenodes == 0`; otherwise, the `int`
subtraction `nnodes - npmenodes` being defined (no overflow), it is 1 (`epmePMEONLY`) when
`nodeid >= nnodes - npmenodes` and 0 (`epmePPONLY`) when `nodeid < nnodes - npmenodes`; the
result is always one of the three enumerators. -/
theorem pmeduty_spec (cr : t_commrec) :
    (cr.npmenodes = 0 → pmeduty cr = 2 ∧ pmeduty cr = epmePMEANDPP) ∧
    (cr.npmenodes ≠ 0 → INT_MIN ≤ cr.nnodes - cr.npmenodes →
      cr.nnodes - cr.npmenodes ≤ INT_MAX →
        (cr.nodeid ≥ cr.nnodes - cr.npmenodes → pmeduty cr = 1 ∧ pmeduty cr = epmePMEONLY) ∧
        (cr.nodeid < cr.nnodes - cr.npmenodes → pmeduty cr = 0 ∧ pmeduty cr = epmePPONLY)) ∧
    (pmeduty cr = epmePPONLY ∨ pmeduty cr = epmePMEONLY ∨ pmeduty cr = epmePMEANDPP) := by
  refine ⟨?_, ?_, ?_⟩
  · intro h
    simp [pmeduty, h, epmePMEANDPP]
  · intro h h1 h2
    have hw := wrapInt_of_inRange _ h1 h2
    constructor
    · intro hge
      simp [pmeduty, h, hw, hge, epmePMEONLY]
    · intro hlt
      have : ¬ (cr.nnodes - cr.npmenodes ≤ cr.nodeid) := by omega
      simp [pmeduty, h, hw, this, epmePPONLY]
  · unfold pmeduty epmePPONLY epmePMEONLY epmePMEANDPP
    split
    · simp
    · split <;> simp

/-- Witness of `pmeduty_spec`: 8 nodes of which 2 do PME only, on node 6. -/
theorem pmeduty_spec_witness :
    ((⟨6, 8, 2, 0, 0, 0, 1⟩ : t_commrec).npmenodes ≠ 0) ∧
    pmeduty ⟨6, 8, 2, 0, 0, 0, 1⟩ = epmePMEONLY :=
  ⟨by decide,
   (((pmeduty_spec ⟨6, 8, 2, 0, 0, 0, 1⟩).2.1 (by decide) (by decide) (by decide)).1
      (by decide)).2⟩

/-! ### C3 -/

/-- C3: `getCompatibleDevices` returns the `id`s of exactly the entries whose status is
`Compatible`, in input order, one per compatible entry; the result is empty iff no entry is
compatible, and is never longer than the input. -/
theorem getCompatibleDevices_spec (deviceInfos : List DeviceInformation) :
    getCompatibleDevices deviceInfos
      = (deviceInfos.filter (fun d => decide (d.status = DeviceStatus.Compatible))).map
          (fun d => d.id) ∧
    (getCompatibleDevices deviceInfos).length
      = deviceInfos.countP (fun d => decide (d.status = DeviceStatus.Compatible)) ∧
    (getCompatibleDevices deviceInfos = [] ↔
      ∀ d ∈ deviceInfos, d.status ≠ DeviceStatus.Compatible) ∧
    (getCompatibleDevices deviceInfos).length ≤ deviceInfos.length := by
  have h : getCompatibleDevices deviceInfos
      = (deviceInfos.filter (fun d => decide (d.status = DeviceStatus.Compatible))).map
          (fun d => d.id) := by
    unfold getCompatibleDevices
    rw [getCompatibleDevices_foldl]
    simp
  refine ⟨h, ?_, ?_, ?_⟩
  · rw [h, List.length_map, List.countP_eq_length_filter]
  · rw [h]
    simp [List.filter_eq_nil_iff]
  · rw [h, List.length_map]
    exact List.length_filter_le _ _

/-! ### C4 -/

theorem decodeInt_encodeInt (v : Int) : decodeInt (encodeInt v) = wrapInt v := by
  simp only [encodeInt, decodeInt, byteOf, wrapInt]
  omega

theorem doIntRead_doIntWrite (v : Int) (rest : ByteStream) :
    doIntRead (doIntWrite [] v ++ rest) = some (wrapInt v, rest) := by
  have h4 : (encodeInt v).length = 4 := by simp [encodeInt]
  simp only [doIntRead, doIntWrite, List.nil_append, List.length_append, h4]
  rw [if_neg (by omega)]
  rw [List.take_left' h4, List.drop_left' h4, decodeInt_encodeInt]

theorem serialize_foldl (sz : Nat) (deviceInfos : List (List Byte)) (s : ByteStream)
    (hsz : ∀ d ∈ deviceInfos, d.length = sz) :
    deviceInfos.foldl (fun serializer deviceInfo => doOpaqueWrite serializer deviceInfo sz) s
      = s ++ deviceInfos.flatten := by
  induction deviceInfos generalizing s with
  | nil => simp
  | cons d ds ih =>
    have hd : d.length = sz := hsz d (by simp)
    have hds : ∀ e ∈ ds, e.length = sz := fun e he => hsz e (by simp [he])
    simp only [List.foldl_cons, List.flatten_cons]
    rw [ih _ hds]
    simp [doOpaqueWrite, ← hd]

theorem deserializeLoop_flatten (sz : Nat) (deviceInfos : List (List Byte)) (rest : ByteStream)
    (hsz : ∀ d ∈ deviceInfos, d.length = sz) :
    deserializeLoop sz deviceInfos.length (deviceInfos.flatten ++ rest)
      = some (deviceInfos, rest) := by
  induction deviceInfos with
  | nil => simp [deserializeLoop]
  | cons d ds ih =>
    have hd : d.length = sz := hsz d (by simp)
    have hds : ∀ e ∈ ds, e.length = sz := fun e he => hsz e (by simp [he])
    have hread : doOpaqueRead (d ++ (ds.flatten ++ rest)) sz = some (d, ds.flatten ++ rest) := by
      simp only [doOpaqueRead, List.length_append]
      rw [if_neg (by omega), List.take_left' hd, List.drop_left' hd]
    simp only [List.length_cons, List.flatten_cons, List.append_assoc, deserializeLoop, hread,
      ih hds]

/-- C4: for a list of device informations whose length is representable as `int`, each given
by its `sizeof(DeviceInformation)` bytes, `deserializeDeviceInformations` run on the stream
written by `serializeDeviceInformations` returns the same list: the same length and, at every
index, the same bytes. -/
theorem deserialize_serialize_roundtrip (sizeofDeviceInformation : Nat)
    (deviceInfos : List (List Byte)) (rest : ByteStream)
    (hlen : (deviceInfos.length : Int) ≤ INT_MAX)
    (hsz : ∀ d ∈ deviceInfos, d.length = sizeofDeviceInformation) :
    ∃ out, deserializeDeviceInformations sizeofDeviceInformation
        (serializeDeviceInformations sizeofDeviceInformation deviceInfos [] ++ rest)
          = some (out, rest) ∧
      out.length = deviceInfos.length ∧
      ∀ i : Nat, i < deviceInfos.length → out[i]? = deviceInfos[i]? := by
  refine ⟨deviceInfos, ?_, rfl, fun _ _ => rfl⟩
  have hw : wrapInt (deviceInfos.length : Int) = deviceInfos.length := by
    apply wrapInt_of_inRange _ _ hlen
    unfold INT_MIN
    omega
  unfold deserializeDeviceInformations serializeDeviceInformations
  simp only []
  rw [serialize_foldl _ _ _ hsz, List.append_assoc, doIntRead_doIntWrite]
  simp only [hw]
  rw [if_neg (by omega), Int.toNat_ofNat]
  exact deserializeLoop_flatten _ _ _ hsz

/-- Witness of `deserialize_serialize_roundtrip`: two devices of three bytes each. -/
theorem deserialize_serialize_roundtrip_witness :
    ∃ out, deserializeDeviceInformations 3
        (serializeDeviceInformations 3 [[1, 2, 3], [255, 0, 7]] [] ++ [])
          = some (out, []) ∧
      out.length = [[(1 : Byte), 2, 3], [255, 0, 7]].length ∧
      ∀ i : Nat, i < [[(1 : Byte), 2, 3], [255, 0, 7]].length →
        out[i]? = [[(1 : Byte), 2, 3], [255, 0, 7]][i]? :=
  deserialize_serialize_roundtrip 3 [[1, 2, 3], [255, 0, 7]] [] (by decide) (by decide)

/-! ### C5 -/

theorem scanComponents_apply (xpos : RVec) (state : RVec × RVec) (m : Fin 3) :
    ((scanComponents xpos state).1 m, (scanComponents xpos state).2 m)
      = scanStep (state.1 m, state.2 m) (xpos m) := by
  obtain ⟨cmin, cmax⟩ := state
  simp only [scanComponents, List.finRange, List.ofFn, Fin.foldr, Fin.foldr.loop, List.foldl,
    scanStep]
  fin_cases m <;>
    by_cases h0 : xpos 0 < cmin 0 <;> by_cases h0' : xpos 0 > cmax 0 <;>
    by_cases h1 : xpos 1 < cmin 1 <;> by_cases h1' : xpos 1 > cmax 1 <;>
    by_cases h2 : xpos 2 < cmin 2 <;> by_cases h2' : xpos 2 > cmax 2 <;>
    simp [h0, h0', h1, h1', h2, h2', Function.update]

theorem scanStep_foldl (values : List ℚ) (a b : ℚ) (hab : a ≤ b) :
    (values.foldl scanStep (a, b)).1 ≤ (values.foldl scanStep (a, b)).2 ∧
    ((values.foldl scanStep (a, b)).1 = a ∨ (values.foldl scanStep (a, b)).1 ∈ values) ∧
    (values.foldl scanStep (a, b)).1 ≤ a ∧
    (∀ w ∈ values, (values.foldl scanStep (a, b)).1 ≤ w) ∧
    ((values.foldl scanStep (a, b)).2 = b ∨ (values.foldl scanStep (a, b)).2 ∈ values) ∧
    b ≤ (values.foldl scanStep (a, b)).2 ∧
    (∀ w ∈ values, w ≤ (values.foldl scanStep (a, b)).2) := by
  induction values generalizing a b with
  | nil => simp [hab]
  | cons v vs ih =>
    simp only [List.foldl_cons]
    by_cases h1 : v < a
    · have hstep : scanStep (a, b) v = (v, b) := by simp [scanStep, h1]
      rw [hstep]
      obtain ⟨i1, i2, i3, i4, i5, i6, i7⟩ := ih v b (by linarith)
      refine ⟨i1, ?_, by linarith, ?_, ?_, i6, ?_⟩
      · rcases i2 with h | h
        · right; rw [h]; simp
        · right; simp [h]
      · intro w hw
        rcases List.mem_cons.mp hw with h | h
        · rw [h]; exact i3
        · exact i4 w h
      · rcases i5 with h | h
        · left; exact h
        · right; simp [h]
      · intro w hw
        rcases List.mem_cons.mp hw with h | h
        · rw [h]; linarith
        · exact i7 w h
    · by_cases h2 : v > b
      · have hstep : scanStep (a, b) v = (a, v) := by simp [scanStep, h1, h2]
        rw [hstep]
        obtain ⟨i1, i2, i3, i4, i5, i6, i7⟩ := ih a v (by linarith)
        refine ⟨i1, ?_, i3, ?_, ?_, by linarith, ?_⟩
        · rcases i2 with h | h
          · left; exact h
          · right; simp [h]
        · intro w hw
          rcases List.mem_cons.mp hw with h | h
          · rw [h]; linarith
          · exact i4 w h
        · rcases i5 with h | h
          · right; rw [h]; simp
          · right; simp [h]
        · intro w hw
          rcases List.mem_cons.mp hw with h | h
          · rw [h]; exact i6
          · exact i7 w h
      · have hstep : scanStep (a, b) v = (a, b) := by simp [scanStep, h1, h2]
        rw [hstep]
        obtain ⟨i1, i2, i3, i4, i5, i6, i7⟩ := ih a b hab
        refine ⟨i1, ?_, i3, ?_, ?_, i6, ?_⟩
        · rcases i2 with h | h
          · left; exact h
          · right; simp [h]
        · intro w hw
          rcases List.mem_cons.mp hw with h | h
          · rw [h]; linarith
          · exact i4 w h
        · rcases i5 with h | h
          · left; exact h
          · right; simp [h]
        · intro w hw
          rcases List.mem_cons.mp hw with h | h
          · rw [h]; linarith
          · exact i7 w h

theorem scanStep_foldl_extent (v : ℚ) (rest : List ℚ) :
    IsMinimumOf ((v :: rest).foldl scanStep (v, v)).1 (v :: rest) ∧
    IsMaximumOf ((v :: rest).foldl scanStep (v, v)).2 (v :: rest) := by
  obtain ⟨_, i2, _, i4, i5, _, i7⟩ := scanStep_foldl (v :: rest) v v (le_refl v)
  refine ⟨⟨?_, i4⟩, ⟨?_, i7⟩⟩
  · rcases i2 with h | h
    · rw [h]; simp
    · exact h
  · rcases i5 with h | h
    · rw [h]; simp
    · exact h

theorem scanComponents_foldl (atoms : List RVec) (state : RVec × RVec) (m : Fin 3) :
    ((atoms.foldl (fun state xpos => scanComponents xpos state) state).1 m,
     (atoms.foldl (fun state xpos => scanComponents xpos state) state).2 m)
      = (atoms.map (fun xpos => xpos m)).foldl scanStep (state.1 m, state.2 m) := by
  induction atoms generalizing state with
  | nil => rfl
  | cons xpos rest ih =>
    simp only [List.foldl_cons, List.map_cons]
    rw [ih, scanComponents_apply]

theorem getAt?_isSome {α : Type} (xs : List α) (i : Int) (h0 : 0 ≤ i) (h1 : i < xs.length) :
    ∃ v, getAt? xs i = some v := by
  have hlt : i.toNat < xs.length := by omega
  exact ⟨xs[i.toNat], by simp [getAt?, not_lt.mpr h0, List.getElem?_eq_getElem hlt]⟩

theorem getAt?_map {α β : Type} (f : α → β) (xs : List α) (i : Int) :
    getAt? (xs.map f) i = (getAt? xs i).map f := by
  unfold getAt?
  split <;> simp

theorem selectedAtom_spec (center : CenterSelection) (x : List RVec) (i : Nat)
    (h : ∃ pos, getAt? center.refIds (i : Int) = some pos ∧ 0 ≤ pos ∧ pos < x.length) :
    ∃ pos, getAt? center.refIds (i : Int) = some pos ∧
      getAt? x pos = some (selectedAtom center x i) := by
  obtain ⟨pos, h1, h2, h3⟩ := h
  obtain ⟨v, hv⟩ := getAt?_isSome x pos h2 h3
  exact ⟨pos, h1, by simp [selectedAtom, h1, hv]⟩

theorem scanSelection_eq (center : CenterSelection) (x : List RVec) (count : Nat) (i : Nat)
    (state : RVec × RVec)
    (h : ∀ k, k < count →
      ∃ pos, getAt? center.refIds ((i + k : Nat) : Int) = some pos ∧ 0 ≤ pos ∧ pos < x.length) :
    scanSelection center x i count state
      = some (((List.range' i count).map (selectedAtom center x)).foldl
          (fun state xpos => scanComponents xpos state) state) := by
  induction count generalizing i state with
  | zero => simp [scanSelection]
  | succ n ih =>
    obtain ⟨pos, h1, h2⟩ := selectedAtom_spec center x i (by simpa using h 0 (Nat.succ_pos n))
    have hrest : ∀ k, k < n →
        ∃ pos, getAt? center.refIds ((i + 1 + k : Nat) : Int) = some pos ∧ 0 ≤ pos
          ∧ pos < x.length := by
      intro k hk
      have := h (k + 1) (by omega)
      rwa [show i + (k + 1) = i + 1 + k by omega] at this
    simp only [scanSelection, h1, h2, ih (i + 1) _ hrest, List.range'_succ, List.map_cons,
      List.foldl_cons]

theorem filterMap_eq_map_of_some {α β : Type} (g : α → Option β) (f : α → β) (l : List α)
    (h : ∀ a ∈ l, g a = some (f a)) : l.filterMap g = l.map f := by
  induction l with
  | nil => rfl
  | cons a l ih =>
    have ha := h a (by simp)
    have hl : ∀ b ∈ l, g b = some (f b) := fun b hb => h b (by simp [hb])
    simp [List.filterMap_cons, ha, ih hl]

theorem selectionCoordinates_eq (center : CenterSelection) (x : List RVec) (m : Fin 3)
    (h : ValidCenter center x.length) :
    selectionCoordinates center x m
      = (List.range center.atomCount.toNat).map (fun i => selectedAtom center x i m) := by
  unfold selectionCoordinates
  apply filterMap_eq_map_of_some
  intro i hi
  have hi' : (i : Int) < center.atomCount := by
    have := List.mem_range.mp hi
    omega
  obtain ⟨pos, h1, h2⟩ := selectedAtom_spec center x i (h.2 i hi')
  simp [h1, h2]

theorem selectedAtom_map (center : CenterSelection) (x : List RVec) (f : RVec → RVec) (i : Nat)
    (h : ∃ pos, getAt? center.refIds (i : Int) = some pos ∧ 0 ≤ pos ∧ pos < x.length) :
    selectedAtom center (x.map f) i = f (selectedAtom center x i) := by
  obtain ⟨pos, h1, h2, h3⟩ := h
  obtain ⟨v, hv⟩ := getAt?_isSome x pos h2 h3
  simp [selectedAtom, h1, hv, getAt?_map]

theorem isMinimumOf_map_add (v s : ℚ) (values : List ℚ) (h : IsMinimumOf v values) :
    IsMinimumOf (v + s) (values.map (fun w => w + s)) := by
  refine ⟨List.mem_map.mpr ⟨v, h.1, rfl⟩, ?_⟩
  intro w hw
  obtain ⟨u, hu, rfl⟩ := List.mem_map.mp hw
  have := h.2 u hu
  linarith

theorem isMaximumOf_map_add (v s : ℚ) (values : List ℚ) (h : IsMaximumOf v values) :
    IsMaximumOf (v + s) (values.map (fun w => w + s)) := by
  refine ⟨List.mem_map.mpr ⟨v, h.1, rfl⟩, ?_⟩
  intro w hw
  obtain ⟨u, hu, rfl⟩ := List.mem_map.mp hw
  have := h.2 u hu
  linarith

theorem selectionExtent_spec (self : SetCenter) (input : t_trxframe)
    (hvalid : ValidCenter self.center_ input.natoms) :
    ∃ cmin cmax, selectionExtent self input = some (cmin, cmax) ∧
      ∀ m, IsMinimumOf (cmin m) (selectionCoordinates self.center_ input.x m) ∧
        IsMaximumOf (cmax m) (selectionCoordinates self.center_ input.x m) := by
  have hv : ValidCenter self.center_ input.x.length := hvalid
  obtain ⟨n, hn⟩ : ∃ n : Nat, self.center_.atomCount.toNat = n + 1 :=
    ⟨self.center_.atomCount.toNat - 1, by have := hv.1; omega⟩
  have hall : ∀ k, k < n + 1 →
      ∃ pos, getAt? self.center_.refIds ((0 + k : Nat) : Int) = some pos ∧ 0 ≤ pos
        ∧ pos < input.x.length := by
    intro k hk
    rw [Nat.zero_add]
    exact hv.2 k (by omega)
  obtain ⟨pos0, h1, h2⟩ := selectedAtom_spec self.center_ input.x 0 (by simpa using hall 0 (by omega))
  have hscan := scanSelection_eq self.center_ input.x (n + 1) 0
    (selectedAtom self.center_ input.x 0, selectedAtom self.center_ input.x 0) hall
  have h1' : getAt? self.center_.refIds 0 = some pos0 := by simpa using h1
  refine ⟨_, _, by simp only [selectionExtent, h1', h2, hn, hscan]; rfl, ?_⟩
  intro m
  have hcoords := selectionCoordinates_eq self.center_ input.x m hv
  rw [hn, List.range_eq_range'] at hcoords
  have hfold := scanComponents_foldl
    ((List.range' 0 (n + 1)).map (selectedAtom self.center_ input.x))
    (selectedAtom self.center_ input.x 0, selectedAtom self.center_ input.x 0) m
  have hlist : ((List.range' 0 (n + 1)).map (selectedAtom self.center_ input.x)).map
      (fun xpos => xpos m) = selectedAtom self.center_ input.x 0 m
        :: (List.range' 1 n).map (fun i => selectedAtom self.center_ input.x i m) := by
    simp [List.range'_succ, Function.comp_def]
  have hcoords' : selectionCoordinates self.center_ input.x m
      = selectedAtom self.center_ input.x 0 m
        :: (List.range' 1 n).map (fun i => selectedAtom self.center_ input.x i m) := by
    rw [hcoords]
    simp [List.range'_succ]
  rw [hlist] at hfold
  have hext := scanStep_foldl_extent (selectedAtom self.center_ input.x 0 m)
    ((List.range' 1 n).map (fun i => selectedAtom self.center_ input.x i m))
  rw [← hfold] at hext
  rw [hcoords']
  exact hext

/-- Where the selection has a position for every `i < atomCount()` and the reference ids are
atom indices of the frame, `convertFrame` does centre the system: the `cmin` and `cmax` of the
scan are the component-wise minimum and maximum of the coordinates of the selection's atoms,
every atom of the frame is translated by the one vector
`localBoxCenter - (cmin + cmax) / 2`, the box is kept, and afterwards, in every dimension `m`,
the midpoint `(min + max) / 2` of the `m`-coordinates of the selection's atoms is the
`m`-component of the box centre given by `calc_box_center` for the centering type. -/
theorem convertFrame_centres (calc_box_center : CenteringType → BoxMatrix → RVec)
    (self : SetCenter) (input : t_trxframe)
    (hvalid : ValidCenter self.center_ input.natoms) :
    ∃ cmin cmax, selectionExtent self input = some (cmin, cmax) ∧
      (∀ m, IsMinimumOf (cmin m) (selectionCoordinates self.center_ input.x m) ∧
        IsMaximumOf (cmax m) (selectionCoordinates self.center_ input.x m)) ∧
      ∃ output, convertFrame calc_box_center self input = some output ∧
        output.natoms = input.natoms ∧ output.box = input.box ∧
        output.x = input.x.map (fun xi => fun m =>
          xi m + (calc_box_center self.centerFlag_ input.box m - (cmin m + cmax m) / 2)) ∧
        ∀ m, ∃ lo hi, IsMinimumOf lo (selectionCoordinates self.center_ output.x m) ∧
          IsMaximumOf hi (selectionCoordinates self.center_ output.x m) ∧
          (lo + hi) / 2 = calc_box_center self.centerFlag_ input.box m := by
  obtain ⟨cmin, cmax, hscan, hminmax⟩ := selectionExtent_spec self input hvalid
  refine ⟨cmin, cmax, hscan, hminmax, ?_⟩
  have hv : ValidCenter self.center_ input.x.length := hvalid
  refine ⟨{ input with x := input.x.map (fun xi => fun m =>
      xi m + (calc_box_center self.centerFlag_ input.box m - (cmin m + cmax m) * (1 / 2))) },
    by simp only [convertFrame, hscan], by simp [t_trxframe.natoms], rfl, ?_, ?_⟩
  · apply List.map_congr_left
    intro xi _
    funext m
    ring
  intro m
  have hv' : ValidCenter self.center_
      (input.x.map (fun xi => fun m =>
        xi m + (calc_box_center self.centerFlag_ input.box m
          - (cmin m + cmax m) * (1 / 2)))).length := by
    rw [List.length_map]
    exact hv
  have hcoords : selectionCoordinates self.center_
      (input.x.map (fun xi => fun m =>
        xi m + (calc_box_center self.centerFlag_ input.box m
          - (cmin m + cmax m) * (1 / 2)))) m
      = (selectionCoordinates self.center_ input.x m).map
          (fun w => w + (calc_box_center self.centerFlag_ input.box m
            - (cmin m + cmax m) * (1 / 2))) := by
    rw [selectionCoordinates_eq _ _ _ hv', selectionCoordinates_eq _ _ _ hv, List.map_map]
    apply List.map_congr_left
    intro i hi
    have hi' : (i : Int) < self.center_.atomCount := by
      have := List.mem_range.mp hi
      omega
    simp only [Function.comp_apply]
    rw [selectedAtom_map _ _ _ _ (hv.2 i hi')]
  refine ⟨cmin m + (calc_box_center self.centerFlag_ input.box m - (cmin m + cmax m) * (1 / 2)),
    cmax m + (calc_box_center self.centerFlag_ input.box m - (cmin m + cmax m) * (1 / 2)),
    ?_, ?_, by ring⟩
  · rw [hcoords]
    exact isMinimumOf_map_add _ _ _ (hminmax m).1
  · rw [hcoords]
    exact isMaximumOf_map_add _ _ _ (hminmax m).2

theorem exampleCenter_valid : ValidCenter exampleCenter.center_ exampleFrame.natoms := by
  refine ⟨by decide, ?_⟩
  intro i hi
  have hi2 : i < 2 := by
    have : (i : Int) < 2 := hi
    omega
  interval_cases i
  · exact ⟨2, rfl, by decide, by decide⟩
  · exact ⟨0, rfl, by decide, by decide⟩

/-- Witness of `convertFrame_centres`: the atoms 2 and 0 of a frame of three atoms. -/
theorem convertFrame_centres_witness :
    ValidCenter exampleCenter.center_ exampleFrame.natoms ∧
    ∃ cmin cmax, selectionExtent exampleCenter exampleFrame = some (cmin, cmax) :=
  ⟨exampleCenter_valid,
   (convertFrame_centres halfDiagonal exampleCenter exampleFrame exampleCenter_valid).imp
     (fun _ h => h.imp (fun _ h2 => h2.1))⟩

/-- C5: the code at the failing input. For a centre selection of one position (reference id 0)
that holds three atoms, on a frame of three atoms, the loop
`for (int i = 0; i < center_.atomCount(); i++)` of `convertFrame` asks for `position(1)`: the
position 0 and its atom exist, the position 1 does not, the scan has no result and no centred
frame is produced. -/
theorem convertFrame_reads_past_positions :
    getAt? onePositionOfThreeAtoms.center_.refIds 0 = some 0 ∧
    (getAt? exampleFrame.x 0).isSome = true ∧
    getAt? onePositionOfThreeAtoms.center_.refIds 1 = none ∧
    (selectionExtent onePositionOfThreeAtoms exampleFrame).isNone = true ∧
    (convertFrame halfDiagonal onePositionOfThreeAtoms exampleFrame).isNone = true := by
  refine ⟨rfl, rfl, rfl, rfl, rfl⟩

/-! ### C6 -/

/-- C6: when `GMX_GPU_NB_ANA_EWALD` and `GMX_GPU_NB_TAB_EWALD` are not both set,
`nbnxn_gpu_pick_ewald_kernel_type` returns a tabulated kernel if `GMX_GPU_NB_TAB_EWALD` is set
and an analytical one otherwise, in the twin cut-off variant exactly when
`ic.rcoulomb != ic.rvdw` or `GMX_GPU_NB_EWALD_TWINCUT` is set; with no variable set and equal
cut-offs the result is `eelTypeEWALD_ANA`. -/
theorem pick_ewald_kernel_type_spec (getenv : String → Option String)
    (ic : interaction_const_t)
    (hnot : ¬ ((getenv "GMX_GPU_NB_ANA_EWALD").isSome = true
      ∧ (getenv "GMX_GPU_NB_TAB_EWALD").isSome = true)) :
    (nbnxn_gpu_pick_ewald_kernel_type getenv ic
      = Except.ok
          (if (getenv "GMX_GPU_NB_TAB_EWALD").isSome = true then
            (if ic.rcoulomb ≠ ic.rvdw ∨ (getenv "GMX_GPU_NB_EWALD_TWINCUT").isSome = true
              then eelType.eelTypeEWALD_TAB_TWIN else eelType.eelTypeEWALD_TAB)
           else
            (if ic.rcoulomb ≠ ic.rvdw ∨ (getenv "GMX_GPU_NB_EWALD_TWINCUT").isSome = true
              then eelType.eelTypeEWALD_ANA_TWIN else eelType.eelTypeEWALD_ANA))) ∧
    ((getenv "GMX_GPU_NB_ANA_EWALD" = none ∧ getenv "GMX_GPU_NB_TAB_EWALD" = none
        ∧ getenv "GMX_GPU_NB_EWALD_TWINCUT" = none ∧ ic.rcoulomb = ic.rvdw) →
      nbnxn_gpu_pick_ewald_kernel_type getenv ic = Except.ok eelType.eelTypeEWALD_ANA) := by
  constructor
  · unfold nbnxn_gpu_pick_ewald_kernel_type
    cases hA : (getenv "GMX_GPU_NB_ANA_EWALD").isSome <;>
    cases hT : (getenv "GMX_GPU_NB_TAB_EWALD").isSome <;>
    cases hW : getenv "GMX_GPU_NB_EWALD_TWINCUT" <;>
    by_cases hc : ic.rcoulomb = ic.rvdw <;>
    simp_all
  · rintro ⟨hA, hT, hW, hc⟩
    simp [nbnxn_gpu_pick_ewald_kernel_type, hA, hT, hW, hc]

/-- Witness of `pick_ewald_kernel_type_spec`: only `GMX_GPU_NB_TAB_EWALD` set, different
cut-offs. -/
theorem pick_ewald_kernel_type_spec_witness :
    nbnxn_gpu_pick_ewald_kernel_type (environmentOf ["GMX_GPU_NB_TAB_EWALD"]) ⟨1, 2⟩
      = Except.ok eelType.eelTypeEWALD_TAB_TWIN :=
  (pick_ewald_kernel_type_spec (environmentOf ["GMX_GPU_NB_TAB_EWALD"]) ⟨1, 2⟩
    (by decide)).1.trans (by simp [environmentOf])

/-! ### C7 -/

/-- C7: `nbnxn_gpu_pick_ewald_kernel_type` ends in `gmx_incons` with the message "Both
analytical and tabulated Ewald GPU non-bonded kernels requested through environment variables."
if and only if `GMX_GPU_NB_ANA_EWALD` and `GMX_GPU_NB_TAB_EWALD` are both set, whatever the
cut-offs and `GMX_GPU_NB_EWALD_TWINCUT`; in every other environment it returns a kernel type,
and these are the only two outcomes. -/
theorem pick_ewald_kernel_type_error_iff (getenv : String → Option String)
    (ic : interaction_const_t) :
    (nbnxn_gpu_pick_ewald_kernel_type getenv ic = Except.error bothEwaldKernelsRequested ↔
      ((getenv "GMX_GPU_NB_ANA_EWALD").isSome = true
        ∧ (getenv "GMX_GPU_NB_TAB_EWALD").isSome = true)) ∧
    ((∃ kernel_type, nbnxn_gpu_pick_ewald_kernel_type getenv ic = Except.ok kernel_type) ↔
      ¬ ((getenv "GMX_GPU_NB_ANA_EWALD").isSome = true
        ∧ (getenv "GMX_GPU_NB_TAB_EWALD").isSome = true)) ∧
    bothEwaldKernelsRequested = "Both analytical and tabulated Ewald GPU non-bonded kernels "
      ++ "requested through environment variables." := by
  refine ⟨?_, ?_, by decide⟩
  · unfold nbnxn_gpu_pick_ewald_kernel_type
    cases hA : (getenv "GMX_GPU_NB_ANA_EWALD").isSome <;>
    cases hT : (getenv "GMX_GPU_NB_TAB_EWALD").isSome <;>
    simp <;> split <;> simp
  · unfold nbnxn_gpu_pick_ewald_kernel_type
    cases hA : (getenv "GMX_GPU_NB_ANA_EWALD").isSome <;>
    cases hT : (getenv "GMX_GPU_NB_TAB_EWALD").isSome <;>
    simp <;> split <;> simp

/-! ### C8 -/

theorem mem_blockIndices (first last i : Int) :
    i ∈ blockIndices first last ↔ first ≤ i ∧ i < last := by
  unfold blockIndices
  simp only [List.mem_map, List.mem_range]
  constructor
  · rintro ⟨k, hk, rfl⟩
    omega
  · rintro ⟨h1, h2⟩
    exact ⟨(i - first).toNat, by omega, by omega⟩

theorem blockIndices_nodup (first last : Int) : (blockIndices first last).Nodup := by
  unfold blockIndices
  apply List.Nodup.map _ (List.nodup_range _)
  intro a b hab
  simp only at hab
  omega

theorem realSum_exact (values : List ℚ) : realSum values = values.sum := by
  unfold realSum
  rw [List.sum_eq_foldl]

theorem sumAtoms_eq {real : Type} [Zero real] [Add real] (sel : Selection real)
    (top : t_topology real) (count : Nat) (i : Int) (acc : real × real)
    (h : ∀ j : Int, i ≤ j → j < i + count →
      ∃ index atom, getAt? sel.g_index j = some index ∧ getAt? top.atoms index = some atom) :
    sumAtoms sel top i count acc
      = some (((List.range count).map (fun (k : Nat) => atomMass sel top (i + (k : Int)))).foldl
                (fun sum value => sum + value) acc.1,
              ((List.range count).map (fun (k : Nat) => atomCharge sel top (i + (k : Int)))).foldl
                (fun sum value => sum + value) acc.2) := by
  induction count generalizing i acc with
  | zero => simp [sumAtoms]
  | succ n ih =>
    obtain ⟨index, atom, h1, h2⟩ := h i (le_refl i) (by push_cast; omega)
    have hrest : ∀ j : Int, i + 1 ≤ j → j < i + 1 + n →
        ∃ index atom, getAt? sel.g_index j = some index ∧ getAt? top.atoms index = some atom :=
      fun j hj1 hj2 => h j (by omega) (by push_cast; omega)
    have hm : atomMass sel top i = atom.m := by simp [atomMass, h1, h2]
    have hq : atomCharge sel top i = atom.q := by simp [atomCharge, h1, h2]
    have hshift : ∀ k : Nat, i + ((k + 1 : Nat) : Int) = i + 1 + (k : Int) := by
      intro k
      push_cast
      ring
    simp only [sumAtoms, h1, h2, ih (i + 1) _ hrest, List.range_succ_eq_map, List.map_cons,
      List.map_map, List.foldl_cons, Function.comp_def, Nat.cast_zero, add_zero, hm, hq,
      hshift]

theorem sum_Ico_int (f : Int → ℚ) (lo hi : Int) :
    ∑ i in Finset.Ico lo hi, f i = ∑ k in Finset.range (hi - lo).toNat, f (lo + (k : Int)) := by
  have h : Finset.Ico lo hi
      = (Finset.range (hi - lo).toNat).image (fun k : Nat => lo + (k : Int)) := by
    ext x
    simp only [Finset.mem_Ico, Finset.mem_image, Finset.mem_range]
    constructor
    · rintro ⟨h1, h2⟩
      exact ⟨(x - lo).toNat, by omega, by omega⟩
    · rintro ⟨k, hk, rfl⟩
      omega
  rw [h, Finset.sum_image]
  intro a _ b _ hab
  simp only at hab
  omega

theorem realSum_exact_block (f : Int → ℚ) (first last : Int) :
    realSum ((blockIndices first last).map f) = ∑ i in Finset.Ico first last, f i := by
  rw [realSum_exact, sum_Ico_int, blockIndices, List.map_map, Finset.sum_range,
    ← List.sum_ofFn]
  congr 1
  apply List.ext_getElem
  · simp
  · intro n h1 h2
    simp

theorem originalMassesAndCharges_eq {real : Type} [Zero real] [One real] [Add real]
    (sel : Selection real) (top : Option (t_topology real)) (count : Nat)
    (b : Nat) (h : ∀ k, k < count → (positionMassAndCharge sel top (b + k)).isSome = true) :
    ∃ original, originalMassesAndCharges sel top b count = some original ∧
      original.length = count ∧
      ∀ k, k < count → original[k]? = positionMassAndCharge sel top (b + k) := by
  induction count generalizing b with
  | zero => exact ⟨[], rfl, rfl, fun k hk => absurd hk (Nat.not_lt_zero k)⟩
  | succ n ih =>
    have h0 := h 0 (Nat.succ_pos n)
    rw [Nat.add_zero, Option.isSome_iff_exists] at h0
    obtain ⟨mq, hmq⟩ := h0
    obtain ⟨rest, hrest, hlen, hget⟩ := ih (b + 1) (fun k hk => by
      have := h (k + 1) (by omega)
      rwa [show b + (k + 1) = b + 1 + k by omega] at this)
    refine ⟨mq :: rest, by simp [originalMassesAndCharges, hmq, hrest], by simp [hlen], ?_⟩
    intro k hk
    cases k with
    | zero => simp [hmq]
    | succ j =>
      rw [List.getElem?_cons_succ, hget j (by omega)]
      congr 1
      omega

theorem positionMassAndCharge_valid {real : Type} [Zero real] [One real] [Add real]
    (sel : Selection real) (top : t_topology real) (b : Nat)
    (first last : Int) (h1 : getAt? sel.mapb_index b = some first)
    (h2 : getAt? sel.mapb_index (b + 1) = some last)
    (h3 : ∀ i : Int, first ≤ i → i < last →
        ∃ index atom, getAt? sel.g_index i = some index ∧ getAt? top.atoms index = some atom) :
    positionMassAndCharge sel (some top) b
      = some (realSum ((blockIndices first last).map (atomMass sel top)),
              realSum ((blockIndices first last).map (atomCharge sel top))) := by
  simp only [positionMassAndCharge, h1, h2]
  rw [sumAtoms_eq sel top _ first (0, 0) (fun j hj1 hj2 => h3 j hj1 (by omega))]
  simp [realSum, blockIndices, List.map_map, Function.comp_def]

/-- C8: `initializeMassesAndCharges` succeeds on index arrays that are consistent with the
topology; with a topology, for every position `b < posCount()`, `originalMass_[b]` is the
`real` sum of `top->atoms.atom[g->index[i]].m` and `originalCharge_[b]` the `real` sum of the
`.q` over all `i` with `mapb.index[b] <= i < mapb.index[b+1]`, added in increasing `i` from 0
in the arithmetic of `real`, whatever that arithmetic rounds; with `top == NULL` every mass is
1 and every charge is 0. In both cases `mass_[b] == originalMass_[b]` and
`charge_[b] == originalCharge_[b]`, and `mass_`, `charge_` are the original arrays themselves
exactly when the selection is not (dynamic without `efDynamicMask`). -/
theorem initializeMassesAndCharges_spec {real : Type} [Zero real] [One real] [Add real]
    (sel : Selection real) (top : Option (t_topology real))
    (hvalid : ∀ topology, top = some topology → ValidFor sel topology) :
    ∃ sel1, initializeMassesAndCharges sel top = some sel1 ∧
      sel1.originalMass_.length = sel.posCount ∧
      sel1.originalCharge_.length = sel.posCount ∧
      (∀ b : Nat, b < sel.posCount →
        (∀ topology, top = some topology →
          ∃ first last, getAt? sel.mapb_index b = some first ∧
            getAt? sel.mapb_index (b + 1) = some last ∧
            sel1.originalMass_[b]?
              = some (realSum ((blockIndices first last).map (atomMass sel topology))) ∧
            sel1.originalCharge_[b]?
              = some (realSum ((blockIndices first last).map (atomCharge sel topology)))) ∧
        (top = none → sel1.originalMass_[b]? = some 1 ∧ sel1.originalCharge_[b]? = some 0) ∧
        sel1.mass b = sel1.originalMass_[b]? ∧
        sel1.charge b = sel1.originalCharge_[b]?) ∧
      ((sel1.mass_ = RealArrayPointer.original ∧ sel1.charge_ = RealArrayPointer.original) ↔
        ¬ (sel.isDynamic = true ∧ sel.efDynamicMask = false)) := by
  have hsome : ∀ k, k < sel.posCount → (positionMassAndCharge sel top (0 + k)).isSome = true := by
    intro k hk
    rw [Nat.zero_add]
    cases top with
    | none => rfl
    | some topology =>
      obtain ⟨first, last, h1, h2, h3⟩ := hvalid topology rfl k hk
      rw [positionMassAndCharge_valid sel topology k first last h1 h2 h3]
      rfl
  obtain ⟨original, horig, hlen, hget⟩ := originalMassesAndCharges_eq sel top sel.posCount 0 hsome
  have hgetm : ∀ b, b < sel.posCount → (original.map Prod.fst)[b]?
      = (positionMassAndCharge sel top b).map Prod.fst := by
    intro b hb
    rw [List.getElem?_map, hget b hb, Nat.zero_add]
  have hgetq : ∀ b, b < sel.posCount → (original.map Prod.snd)[b]?
      = (positionMassAndCharge sel top b).map Prod.snd := by
    intro b hb
    rw [List.getElem?_map, hget b hb, Nat.zero_add]
  have hcopy : ∀ (xs : List real), xs.length = sel.posCount →
      (List.range sel.posCount).map (fun b => xs.getD b 0) = xs := by
    intro xs hxs
    apply List.ext_getElem?
    intro i
    by_cases hi : i < sel.posCount
    · simp [List.getElem?_map, List.getElem?_range hi, List.getD_eq_getElem?_getD,
        List.getElem?_eq_getElem (hxs ▸ hi)]
    · have h1 : xs.length ≤ i := by omega
      simp [List.getElem?_eq_none h1]
      omega
  have hfacts : ∀ b : Nat, b < sel.posCount →
      (∀ topology, top = some topology →
          ∃ first last, getAt? sel.mapb_index b = some first ∧
            getAt? sel.mapb_index (b + 1) = some last ∧
            (original.map Prod.fst)[b]?
              = some (realSum ((blockIndices first last).map (atomMass sel topology))) ∧
            (original.map Prod.snd)[b]?
              = some (realSum ((blockIndices first last).map (atomCharge sel topology)))) ∧
        (top = none → (original.map Prod.fst)[b]? = some 1
          ∧ (original.map Prod.snd)[b]? = some 0) := by
    intro b hb
    constructor
    · intro topology htop
      subst htop
      obtain ⟨first, last, h1, h2, h3⟩ := hvalid topology rfl b hb
      refine ⟨first, last, h1, h2, ?_, ?_⟩
      · rw [hgetm b hb, positionMassAndCharge_valid sel topology b first last h1 h2 h3]
        rfl
      · rw [hgetq b hb, positionMassAndCharge_valid sel topology b first last h1 h2 h3]
        rfl
    · intro htop
      subst htop
      rw [hgetm b hb, hgetq b hb]
      exact ⟨rfl, rfl⟩
  unfold initializeMassesAndCharges
  rw [horig]
  by_cases hdyn : sel.isDynamic = true ∧ sel.efDynamicMask = false
  · have hcond : (sel.isDynamic && !sel.efDynamicMask) = true := by simp [hdyn.1, hdyn.2]
    simp only [hcond, if_true]
    refine ⟨_, rfl, ?_, ?_, ?_, ?_⟩
    · simp [hlen]
    · simp [hlen]
    · intro b hb
      refine ⟨(hfacts b hb).1, (hfacts b hb).2, ?_, ?_⟩
      · simp only [Selection.mass]
        rw [hcopy _ (by simp [hlen])]
      · simp only [Selection.charge]
        rw [hcopy _ (by simp [hlen])]
    · simp [hdyn]
  · have hcond : (sel.isDynamic && !sel.efDynamicMask) = false := by
      cases h1 : sel.isDynamic <;> cases h2 : sel.efDynamicMask <;> simp_all
    simp only [hcond]
    refine ⟨_, rfl, ?_, ?_, ?_, ?_⟩
    · simp [hlen]
    · simp [hlen]
    · intro b hb
      exact ⟨(hfacts b hb).1, (hfacts b hb).2, rfl, rfl⟩
    · simp [hdyn]

theorem exampleSelection_valid : ValidFor exampleSelection exampleTopology := by
  intro b hb
  have hb2 : b < 2 := hb
  interval_cases b
  · refine ⟨0, 2, rfl, rfl, ?_⟩
    intro i h1 h2
    interval_cases i
    · exact ⟨0, ⟨1, 1 / 2⟩, rfl, rfl⟩
    · exact ⟨2, ⟨16, -1 / 2⟩, rfl, rfl⟩
  · refine ⟨2, 3, rfl, rfl, ?_⟩
    intro i h1 h2
    interval_cases i
    exact ⟨1, ⟨12, 0⟩, rfl, rfl⟩

/-- Witness of `initializeMassesAndCharges_spec`: two positions over a topology of three
atoms. -/
theorem initializeMassesAndCharges_spec_witness :
    ValidFor exampleSelection exampleTopology ∧
    ∃ sel1, initializeMassesAndCharges exampleSelection (some exampleTopology) = some sel1 ∧
      sel1.originalMass_.length = exampleSelection.posCount :=
  ⟨exampleSelection_valid,
   (initializeMassesAndCharges_spec exampleSelection (some exampleTopology)
      (fun _ h => Option.some.inj h ▸ exampleSelection_valid)).imp
      (fun _ h => ⟨h.1, h.2.1⟩)⟩

/-- In single precision the mass stored for the atoms of masses 16777216, 1 and 1 is 16777216
(each `+= 1` rounds back), not the exact sum 16777218; the charges 0, 1 and 2 sum to 3. -/
theorem initializeMassesAndCharges_rounds :
    (initializeMassesAndCharges roundingSelection (some roundingTopology)).map
        (fun sel => (sel.originalMass_, sel.originalCharge_, sel.mass 0))
      = some ([⟨16777216⟩], [⟨3⟩], some ⟨16777216⟩) ∧
    realSum [(⟨16777216⟩ : IntegralFloat), ⟨1⟩, ⟨1⟩] = ⟨16777216⟩ ∧
    realSum [(16777216 : ℚ), 1, 1] = 16777218 := by
  refine ⟨by decide, by decide, ?_⟩
  rw [realSum_exact]
  norm_num

/-! ### C9 -/

/-- C9, as stated, fails: with `rootElement_ == NULL` and a type other than `CFRAC_NONE`,
`initCoveredFraction` returns `true` and the covered fraction is not dynamic afterwards. -/
theorem initCoveredFraction_null_root_counterexample :
    ¬ ((initCoveredFraction (fun _ : Unit => true) ⟨none, e_coverfrac_t.CFRAC_NONE, 1, 1, false⟩
          e_coverfrac_t.CFRAC_SOLIDANGLE).1 = true →
        e_coverfrac_t.CFRAC_SOLIDANGLE ≠ e_coverfrac_t.CFRAC_NONE →
        (initCoveredFraction (fun _ : Unit => true) ⟨none, e_coverfrac_t.CFRAC_NONE, 1, 1, false⟩
          e_coverfrac_t.CFRAC_SOLIDANGLE).2.isCoveredFractionDynamic = true) := by
  decide

/-- C9, amended: `initCoveredFraction(type)` returns `false` exactly when
`type != CFRAC_NONE`, the selection has a root element and
`_gmx_selelem_can_estimate_cover` rejects it, and then the stored type is `CFRAC_NONE`; when it
returns `true` for a `type != CFRAC_NONE` and the selection has a root element, the covered
fraction is dynamic afterwards; with `rootElement_ == NULL` it returns `true`, stores `type` and
the covered fraction is not dynamic. After every call `coveredFraction_` and
`averageCoveredFraction_` are both 0 if the covered fraction is dynamic and both 1 otherwise. -/
theorem initCoveredFraction_spec {SelElem : Type} (can_estimate_cover : SelElem → Bool)
    (sel : CoveredFractionState SelElem) (type : e_coverfrac_t) :
    ((initCoveredFraction can_estimate_cover sel type).1 = false ↔
      (type ≠ e_coverfrac_t.CFRAC_NONE ∧
        ∃ rootElement, sel.rootElement_ = some rootElement
          ∧ can_estimate_cover rootElement = false)) ∧
    ((initCoveredFraction can_estimate_cover sel type).1 = false →
      (initCoveredFraction can_estimate_cover sel type).2.coveredFractionType_
        = e_coverfrac_t.CFRAC_NONE) ∧
    ((initCoveredFraction can_estimate_cover sel type).1 = true →
      type ≠ e_coverfrac_t.CFRAC_NONE → sel.rootElement_ ≠ none →
      (initCoveredFraction can_estimate_cover sel type).2.isCoveredFractionDynamic = true) ∧
    (sel.rootElement_ = none →
      (initCoveredFraction can_estimate_cover sel type).1 = true ∧
      (initCoveredFraction can_estimate_cover sel type).2.coveredFractionType_ = type ∧
      (initCoveredFraction can_estimate_cover sel type).2.isCoveredFractionDynamic = false) ∧
    ((initCoveredFraction can_estimate_cover sel type).2.coveredFraction_
        = (if (initCoveredFraction can_estimate_cover sel type).2.isCoveredFractionDynamic
            then 0 else 1) ∧
      (initCoveredFraction can_estimate_cover sel type).2.averageCoveredFraction_
        = (if (initCoveredFraction can_estimate_cover sel type).2.isCoveredFractionDynamic
            then 0 else 1)) ∧
    (initCoveredFraction can_estimate_cover sel type).2.rootElement_ = sel.rootElement_ := by
  obtain ⟨root, t0, cf, acf, bdyn⟩ := sel
  cases type <;> cases root with
  | none => simp [initCoveredFraction, CoveredFractionState.isCoveredFractionDynamic]
  | some e =>
    cases he : can_estimate_cover e <;>
    simp [initCoveredFraction, CoveredFractionState.isCoveredFractionDynamic, he]

/-- Witness of `initCoveredFraction_spec`: a root element whose cover cannot be estimated. -/
theorem initCoveredFraction_spec_witness :
    (initCoveredFraction (fun _ : Unit => false)
        ⟨some (), e_coverfrac_t.CFRAC_SOLIDANGLE, 0, 0, true⟩
        e_coverfrac_t.CFRAC_SOLIDANGLE).1 = false ∧
    (initCoveredFraction (fun _ : Unit => false)
        ⟨some (), e_coverfrac_t.CFRAC_SOLIDANGLE, 0, 0, true⟩
        e_coverfrac_t.CFRAC_SOLIDANGLE).2.coveredFractionType_ = e_coverfrac_t.CFRAC_NONE :=
  ⟨by decide,
   (initCoveredFraction_spec (fun _ : Unit => false)
      ⟨some (), e_coverfrac_t.CFRAC_SOLIDANGLE, 0, 0, true⟩
      e_coverfrac_t.CFRAC_SOLIDANGLE).2.1 (by decide)⟩

/-! ### C10 -/

theorem readVariables_map (ks : List Nat) (name : Nat → String) (memory : List ℚ)
    (h : ∀ k ∈ ks, k < memory.length) :
    readVariables (ks.map (fun k => (name k, k))) memory
      = some (ks.map (fun k => (name k, memory.getD k 0))) := by
  induction ks with
  | nil => simp [readVariables]
  | cons k ks ih =>
    have hk : k < memory.length := h k (by simp)
    have hks : ∀ j ∈ ks, j < memory.length := fun j hj => h j (by simp [hj])
    simp only [List.map_cons, readVariables, ih hks]
    simp [List.getElem?_eq_getElem hk, List.getD_eq_getElem?_getD]

theorem range_map_eq_expectedBindings (memory : List ℚ) :
    (List.range memory.length).map (fun k => ("x" ++ toString (k + 1), memory.getD k 0))
      = expectedBindings memory := by
  unfold expectedBindings
  apply List.ext_getElem?
  intro i
  by_cases hi : i < memory.length
  · simp [List.getElem?_map, List.getElem?_range hi, List.getElem?_enum, hi,
      List.getD_eq_getElem?_getD, List.getElem?_eq_getElem hi]
  · have : memory.length ≤ i := by omega
    simp [List.getElem?_map, List.getElem?_enum, List.getElem?_eq_none this, this]

theorem initializeParser_foldl (ks : List Nat) (values : List ℚ) (parser : MuParser) :
    ks.foldl
      (fun (state : List ℚ × MuParser) n =>
        let variableValues := state.1.set n 0
        let name := "x" ++ toString (n + 1)
        (variableValues, { state.2 with vars := state.2.vars ++ [(name, n)] }))
      (values, parser)
    = (ks.foldl (fun v n => v.set n 0) values,
       { parser with
          vars := parser.vars ++ ks.map (fun k => ("x" ++ toString (k + 1), k)) }) := by
  induction ks generalizing values parser with
  | nil => simp
  | cons k ks ih => simp [List.foldl_cons, ih]

theorem length_foldl_set (ks : List Nat) (values : List ℚ) :
    (ks.foldl (fun v n => v.set n 0) values).length = values.length := by
  induction ks generalizing values with
  | nil => simp
  | cons k ks ih => simp [List.foldl_cons, ih]

theorem length_resize (xs : List ℚ) (n : Nat) : (resize xs n).length = n := by
  simp [resize]
  omega

theorem initializeParser_initialized (self : PullCoordExpressionParser) (n : Nat) :
    ∃ self1, initializeParser true self n = Except.ok self1
      ∧ InitializedFor self1 self.expression_ n := by
  refine ⟨_, rfl, ?_⟩
  refine ⟨rfl, ?_, ?_⟩
  · simp [initializeParser_foldl]
  · simp [initializeParser_foldl, length_foldl_set, length_resize]

theorem evaluate_initialized (muEval : String → List (String × ℚ) → ℚ)
    (self : PullCoordExpressionParser) (expression : String) (values : List ℚ)
    (h : InitializedFor self expression values.length) :
    ∃ self1, evaluate true muEval self values
        = Except.ok (muEval expression (expectedBindings values), self1)
      ∧ InitializedFor self1 expression values.length ∧ self1.variableValues_ = values := by
  obtain ⟨hexpr, hparser, hlen⟩ := h
  refine ⟨{ self with variableValues_ := values }, ?_, ⟨hexpr, hparser, rfl⟩, rfl⟩
  have hdrop : values ++ List.drop values.length self.variableValues_ = values := by
    rw [List.drop_of_length_le (by omega)]
    simp
  have hread := readVariables_map (List.range values.length)
    (fun k => "x" ++ toString (k + 1)) values (by simp)
  rw [range_map_eq_expectedBindings] at hread
  simp [evaluate, hparser, hlen, hdrop, MuParser.Eval, hread]

theorem evaluate_size_mismatch (muEval : String → List (String × ℚ) → ℚ)
    (self : PullCoordExpressionParser) (expression : String) (n : Nat) (values : List ℚ)
    (h : InitializedFor self expression n) (hne : values.length ≠ n) :
    evaluate true muEval self values = Except.error assertionVariablesSize := by
  obtain ⟨_, hparser, hlen⟩ := h
  simp [evaluate, hparser, hlen, hne]

theorem evaluateAll_initialized (muEval : String → List (String × ℚ) → ℚ)
    (expression : String) (n : Nat) (calls : List (List ℚ))
    (self : PullCoordExpressionParser) (h : InitializedFor self expression n)
    (hcalls : ∀ c ∈ calls, c.length = n) :
    ∃ self1, evaluateAll true muEval self calls = Except.ok self1
      ∧ InitializedFor self1 expression n := by
  induction calls generalizing self with
  | nil => exact ⟨self, rfl, h⟩
  | cons c cs ih =>
    have hc : c.length = n := hcalls c (by simp)
    subst hc
    obtain ⟨self1, he, hinit, _⟩ := evaluate_initialized muEval self expression c h
    obtain ⟨self2, he2, hinit2⟩ := ih self1 hinit (fun d hd => hcalls d (by simp [hd]))
    exact ⟨self2, by simp [evaluateAll, he, he2], hinit2⟩

/-- C10: with muparser available, the first call of `evaluate` with `n` values creates the
parser and defines exactly the variables `x1 ... xn`; on that call and on every later call with
`n` values the expression is evaluated with `x(k+1)` holding `values[k]` of the current call;
a later call with another number of values fails the assertion "The size of variables should
match the size passed at the first call of this method". -/
theorem evaluate_spec (muEval : String → List (String × ℚ) → ℚ)
    (self : PullCoordExpressionParser) (first : List ℚ) (later : List (List ℚ))
    (values : List ℚ)
    (hnull : self.parser_ = none)
    (hlater : ∀ c ∈ later, c.length = first.length) :
    ∃ self1,
      evaluate true muEval self first
        = Except.ok (muEval self.expression_ (expectedBindings first), self1) ∧
      self1.parser_.map (fun parser => parser.vars.map Prod.fst)
        = some (variableNames first.length) ∧
      ∃ self2,
        evaluateAll true muEval self1 later = Except.ok self2 ∧
        (values.length = first.length →
          ∃ self3, evaluate true muEval self2 values
            = Except.ok (muEval self.expression_ (expectedBindings values), self3)) ∧
        (values.length ≠ first.length →
          evaluate true muEval self2 values = Except.error assertionVariablesSize) := by
  obtain ⟨self0, hinit0, hI0⟩ := initializeParser_initialized self first.length
  obtain ⟨self1, he1, hI1, _⟩ := evaluate_initialized muEval self0 self.expression_ first hI0
  have hfirst : evaluate true muEval self first
      = Except.ok (muEval self.expression_ (expectedBindings first), self1) := by
    have hsome : self0.parser_.isNone = false := by simp [hI0.2.1]
    rw [← he1]
    simp only [evaluate, if_true, hnull, Option.isNone_none, hinit0, hsome]
    simp
  obtain ⟨self2, he2, hI2⟩ :=
    evaluateAll_initialized muEval self.expression_ first.length later self1 hI1 hlater
  refine ⟨self1, hfirst, ?_, self2, he2, ?_, ?_⟩
  · simp [hI1.2.1, variableNames, Function.comp_def]
  · intro hlen
    rw [← hlen] at hI2
    obtain ⟨self3, he3, _⟩ := evaluate_initialized muEval self2 self.expression_ values hI2
    exact ⟨self3, he3⟩
  · intro hne
    exact evaluate_size_mismatch muEval self2 self.expression_ first.length values hI2 hne


/-- Witness of `evaluate_spec`: the expression `x1+x2`, a first call with (1, 2), a later call
with (3, 4). -/
theorem evaluate_spec_witness :
    variableNames 2 = ["x1", "x2"] ∧
    expectedBindings [1, 2] = [("x1", 1), ("x2", 2)] ∧
    ∃ self1, evaluate true sumOfVariables ⟨"x1+x2", none, []⟩ [1, 2]
      = Except.ok (sumOfVariables "x1+x2" (expectedBindings [1, 2]), self1) :=
  ⟨by decide, by decide,
    (evaluate_spec sumOfVariables ⟨"x1+x2", none, []⟩ [1, 2] [[3, 4]] [5, 6] rfl
      (by decide)).imp (fun _ h => h.1)⟩

/-! ### C11 -/

/-- C11, as stated, fails: for a decomposition with `nodeid = 0` and `masterrank = 1`,
`DDMASTER(dd)` is true although `dd->nodeid != dd->masterrank`, and `DDMASTERRANK(dd)` is 0,
not `dd->masterrank`. -/
theorem ddmaster_masterrank_counterexample :
    ¬ ((DDMASTER ⟨0, 2, 1⟩ = true ↔ (⟨0, 2, 1⟩ : gmx_domdec_t).nodeid
          = (⟨0, 2, 1⟩ : gmx_domdec_t).masterrank) ∧
       DDMASTERRANK ⟨0, 2, 1⟩ = (⟨0, 2, 1⟩ : gmx_domdec_t).masterrank) := by
  decide

/-- C11, amended: for every `gmx_domdec_t dd`, `DDMASTER(dd)` is true if and only if
`dd->nodeid == 0`, and `DDMASTERRANK(dd) == 0`, whatever `dd->masterrank` holds; the two
macros agree with the stored rank (`DDMASTER(dd)` iff `dd->nodeid == dd->masterrank`, and
`DDMASTERRANK(dd) == dd->masterrank`) exactly when `dd->masterrank == 0`. -/
theorem ddmaster_fixed_rank (dd : gmx_domdec_t) :
    (DDMASTER dd = true ↔ dd.nodeid = 0) ∧
    DDMASTERRANK dd = 0 ∧
    (DDMASTERRANK dd = dd.masterrank ↔ dd.masterrank = 0) ∧
    (dd.masterrank = 0 →
      (DDMASTER dd = true ↔ dd.nodeid = dd.masterrank) ∧ DDMASTERRANK dd = dd.masterrank) := by
  refine ⟨by simp [DDMASTER], rfl, ?_, ?_⟩
  · simp only [DDMASTERRANK]
    constructor <;> intro h <;> omega
  · intro h
    simp [DDMASTER, DDMASTERRANK, h]

/-- Witness of `ddmaster_fixed_rank`: node 0 of two nodes with `masterrank = 0`. -/
theorem ddmaster_fixed_rank_witness :
    (DDMASTER ⟨0, 2, 0⟩ = true ↔ (⟨0, 2, 0⟩ : gmx_domdec_t).nodeid
        = (⟨0, 2, 0⟩ : gmx_domdec_t).masterrank) ∧
    DDMASTERRANK ⟨0, 2, 0⟩ = (⟨0, 2, 0⟩ : gmx_domdec_t).masterrank :=
  (ddmaster_fixed_rank ⟨0, 2, 0⟩).2.2.2 rfl

/-! ### C12 -/

theorem fillGa2la_spec (residents : List (Int × Int)) (a : Nat) (ga2la : List gmx_ga2la_t)
    (h : ∀ r ∈ residents, 0 ≤ r.2 ∧ r.2 < ga2la.length) :
    ∃ filled, fillGa2la residents a ga2la = some filled ∧ filled.length = ga2la.length ∧
      ∀ g : Nat, g < ga2la.length →
        (filled[g]? = ga2la[g]? ∧ (g : Int) ∉ residents.map Prod.snd) ∨
        (∃ j c, j < residents.length ∧ residents[j]? = some (c, (g : Int)) ∧
          filled[g]? = some ⟨c, ((a + j : Nat) : Int)⟩) := by
  induction residents generalizing a ga2la with
  | nil =>
    exact ⟨ga2la, rfl, rfl, fun g _ => Or.inl ⟨rfl, by simp⟩⟩
  | cons r rest ih =>
    obtain ⟨cell, gid⟩ := r
    have hr := h (cell, gid) (by simp)
    simp only at hr
    have hrest : ∀ s ∈ rest, 0 ≤ s.2 ∧ s.2 < ((ga2la.set gid.toNat ⟨cell, (a : Int)⟩).length : Int) := by
      intro s hs
      rw [List.length_set]
      exact h s (by simp [hs])
    obtain ⟨filled, hfill, hlen, hspec⟩ := ih (a + 1) _ hrest
    have hcond : 0 ≤ gid ∧ gid.toNat < ga2la.length := ⟨hr.1, by omega⟩
    refine ⟨filled, by simp only [fillGa2la, hcond, and_self, if_true, hfill], ?_, ?_⟩
    · rw [hlen, List.length_set]
    · intro g hg
      rcases hspec g (by rw [List.length_set]; exact hg) with ⟨h1, h2⟩ | ⟨j, c, hj, hget, hval⟩
      · by_cases hgg : gid.toNat = g
        · right
          refine ⟨0, cell, by simp, ?_, ?_⟩
          · have : gid = (g : Int) := by omega
            simp [this]
          · rw [h1, hgg, List.getElem?_set_self hg]
            simp
        · left
          refine ⟨?_, ?_⟩
          · rw [h1, List.getElem?_set_ne hgg]
          · simp only [List.map_cons, List.mem_cons, not_or]
            exact ⟨by omega, h2⟩
      · right
        refine ⟨j + 1, c, by simp [hj], by simpa using hget, ?_⟩
        rw [hval]
        congr 2
        push_cast
        omega

/-- C12: after `rebuildFromAssignment`, for every global atom id that is resident the entry
`ga2la[g]` holds a local slot `a` with `0 <= a < nat_tot_con` and `gatindex[a] == g`; for
every global id that is not resident the entry is "not local" (-1) and `resolve` reports
absent; no two distinct global ids resolve to the same local slot. -/
theorem ga2la_round_trip (natoms : Nat) (residents : List (Int × Int))
    (hvalid : ∀ r ∈ residents, 0 ≤ r.2 ∧ r.2 < natoms) :
    ∃ dd, rebuildFromAssignment natoms residents = some dd ∧
      (∀ g : Int, g ∈ dd.gatindex →
        ∃ entry, getAt? dd.ga2la g = some entry ∧ 0 ≤ entry.a ∧ entry.a < dd.nat_tot_con ∧
          getAt? dd.gatindex entry.a = some g ∧ resolve dd g = some (entry.cell, entry.a)) ∧
      (∀ g : Int, 0 ≤ g → g < natoms → g ∉ dd.gatindex →
        getAt? dd.ga2la g = some notLocal ∧ notLocal.a = -1 ∧ resolve dd g = none) ∧
      (∀ g1 g2 slot1 slot2, resolve dd g1 = some slot1 → resolve dd g2 = some slot2 →
        slot1.2 = slot2.2 → g1 = g2) := by
  obtain ⟨filled, hfill, hlen, hspec⟩ := fillGa2la_spec residents 0
    (List.replicate natoms notLocal) (by simpa using hvalid)
  rw [List.length_replicate] at hlen hspec
  -- every entry of the table is "not local" or the slot of its global id
  have hentry : ∀ g : Int, 0 ≤ g → g < natoms →
      (getAt? filled g = some notLocal ∧ g ∉ residents.map Prod.snd) ∨
      (∃ j : Nat, ∃ c, j < residents.length ∧ residents[j]? = some (c, g) ∧
        getAt? filled g = some ⟨c, (j : Int)⟩) := by
    intro g h0 h1
    have hg : g.toNat < natoms := by omega
    have hcast : ((g.toNat : Nat) : Int) = g := by omega
    rcases hspec g.toNat hg with ⟨h2, h3⟩ | ⟨j, c, hj, hget, hval⟩
    · left
      rw [hcast] at h3
      refine ⟨?_, h3⟩
      simp [getAt?, not_lt.mpr h0, h2, List.getElem?_replicate, hg]
    · right
      rw [hcast] at hget
      refine ⟨j, c, hj, hget, ?_⟩
      simp [getAt?, not_lt.mpr h0, hval]
  have hslot : ∀ (j : Nat) (c g : Int), residents[j]? = some (c, g) →
      getAt? (residents.map Prod.snd) (j : Int) = some g := by
    intro j c g hget
    simp [getAt?, List.getElem?_map, hget]
  have hresolve : ∀ g slot, resolve ⟨(residents.length : Int), residents.map Prod.snd, filled⟩ g
      = some slot → ∃ j : Nat, ∃ c, residents[j]? = some (c, g) ∧ slot = (c, (j : Int)) := by
    intro g slot hres
    unfold resolve at hres
    simp only at hres
    by_cases h0 : g < 0
    · simp [getAt?, h0] at hres
    · by_cases h1 : g < natoms
      · rcases hentry g (by omega) h1 with ⟨h2, _⟩ | ⟨j, c, _, hget, hval⟩
        · simp [h2, notLocal] at hres
        · rw [hval] at hres
          simp only at hres
          split at hres
          · exact absurd hres (by simp)
          · exact ⟨j, c, hget, (Option.some.inj hres).symm⟩
      · have : filled.length ≤ g.toNat := by omega
        simp [getAt?, h0, List.getElem?_eq_none this] at hres
  refine ⟨⟨(residents.length : Int), residents.map Prod.snd, filled⟩,
    by simp only [rebuildFromAssignment, hfill], ?_, ?_, ?_⟩
  · intro g hg
    simp only at hg
    obtain ⟨r, hr, hrg⟩ := List.mem_map.mp hg
    have hv := hvalid r hr
    rw [hrg] at hv
    rcases hentry g hv.1 hv.2 with ⟨_, h3⟩ | ⟨j, c, hj, hget, hval⟩
    · exact absurd hg h3
    · refine ⟨⟨c, (j : Int)⟩, hval, by simp, by simpa using hj, hslot j c g hget, ?_⟩
      unfold resolve
      simp only [hval]
      rw [if_neg (by omega)]
  · intro g h0 h1 hg
    simp only at hg
    rcases hentry g h0 h1 with ⟨h2, _⟩ | ⟨j, c, hj, hget, _⟩
    · refine ⟨h2, rfl, ?_⟩
      unfold resolve
      simp [h2, notLocal]
    · exfalso
      apply hg
      exact List.mem_map.mpr ⟨(c, g), List.getElem?_mem hget, rfl⟩
  · intro g1 g2 slot1 slot2 h1 h2 heq
    obtain ⟨j1, c1, hget1, hs1⟩ := hresolve g1 slot1 h1
    obtain ⟨j2, c2, hget2, hs2⟩ := hresolve g2 slot2 h2
    rw [hs1, hs2] at heq
    simp only at heq
    have hj : j1 = j2 := by omega
    rw [hj, hget2] at hget1
    have := Option.some.inj hget1
    exact (congrArg Prod.snd this).symm

/-- Witness of `ga2la_round_trip`: five global atoms, the atoms 3, 0 and 4 in the local slots
0, 1 and 2. -/
theorem ga2la_round_trip_witness :
    (rebuildFromAssignment 5 [(0, 3), (0, 0), (1, 4)]).map (fun dd => dd.ga2la)
      = some [⟨0, 1⟩, notLocal, notLocal, ⟨0, 0⟩, ⟨1, 2⟩] ∧
    ∃ dd, rebuildFromAssignment 5 [(0, 3), (0, 0), (1, 4)] = some dd ∧
      ∀ g : Int, g ∈ dd.gatindex →
        ∃ entry, getAt? dd.ga2la g = some entry ∧ 0 ≤ entry.a ∧ entry.a < dd.nat_tot_con ∧
          getAt? dd.gatindex entry.a = some g ∧ resolve dd g = some (entry.cell, entry.a) :=
  ⟨by decide,
   (ga2la_round_trip 5 [(0, 3), (0, 0), (1, 4)] (by decide)).imp (fun _ h => ⟨h.1, h.2.1⟩)⟩

/-! ### C13 -/

theorem length_homeChargeGroups (owner : List Int) (n : Int) :
    (homeChargeGroups owner n).length = owner.countP (fun o => decide (o = n)) := by
  unfold homeChargeGroups
  rw [List.length_map, ← List.countP_eq_length_filter]
  have h : ∀ (k : Nat) (l : List Int),
      (List.enumFrom k l).countP (fun entry => decide (entry.2 = n))
        = l.countP (fun o => decide (o = n)) := by
    intro k l
    induction l generalizing k with
    | nil => rfl
    | cons x xs ih =>
      simp only [List.enumFrom_cons, List.countP_cons, ih]
  exact h 0 owner

theorem countP_lt_succ (owner : List Int) (n : Nat) :
    owner.countP (fun o => decide (0 ≤ o ∧ o < ((n + 1 : Nat) : Int)))
      = owner.countP (fun o => decide (0 ≤ o ∧ o < (n : Int)))
        + owner.countP (fun o => decide (o = (n : Int))) := by
  induction owner with
  | nil => rfl
  | cons x xs ih =>
    simp only [List.countP_cons, ih]
    by_cases h1 : x = (n : Int)
    · have h2 : ¬ (0 ≤ x ∧ x < (n : Int)) := by omega
      have h3 : 0 ≤ x ∧ x < ((n + 1 : Nat) : Int) := by omega
      simp only [h1, h2, h3, decide_True, decide_False, if_true]
      simp
      omega
    · by_cases h2 : 0 ≤ x ∧ x < (n : Int)
      · have h3 : 0 ≤ x ∧ x < ((n + 1 : Nat) : Int) := by omega
        simp only [h1, h2, h3, decide_True, decide_False, if_true]
        simp
        omega
      · have h3 : ¬ (0 ≤ x ∧ x < ((n + 1 : Nat) : Int)) := by omega
        simp only [h1, h2, h3, decide_True, decide_False]
        simp

theorem distributeChargeGroups_invariant (owner : List Int) (n : Nat) :
    DivisionInvariant owner n (distributeChargeGroups n owner) := by
  induction n with
  | zero =>
    refine ⟨rfl, rfl, rfl, rfl, fun k hk => absurd hk (Nat.not_lt_zero k), rfl, ?_⟩
    simp only [distributeChargeGroups, List.range_zero, List.foldl_nil, List.length_nil]
    symm
    rw [List.countP_eq_zero]
    intro o _
    simp only [Nat.cast_zero, decide_eq_true_eq]
    omega
  | succ n ih =>
    have hstep : distributeChargeGroups (n + 1) owner
        = distributeNode owner (distributeChargeGroups n owner) n := by
      simp [distributeChargeGroups, List.range_succ, List.foldl_append]
    obtain ⟨h1, h2, h3, h4, h5, h6, h7⟩ := ih
    rw [hstep]
    generalize distributeChargeGroups n owner = ma at h1 h2 h3 h4 h5 h6 h7
    refine ⟨?_, ?_, ?_, ?_, ?_, ?_, ?_⟩
    · simp [distributeNode, h1]
    · simp [distributeNode, h2]
    · simp only [distributeNode]
      rw [List.getElem?_append_left (by omega)]
      exact h3
    · simp only [distributeNode]
      rw [List.getElem?_append_right (by omega)]
      simp [h2]
    · intro k hk
      by_cases hkn : k < n
      · obtain ⟨first, last, count, e1, e2, e3, e4⟩ := h5 k hkn
        refine ⟨first, last, count, ?_, ?_, ?_, e4⟩
        · simp only [distributeNode]
          rw [List.getElem?_append_left (by omega)]
          exact e1
        · simp only [distributeNode]
          rw [List.getElem?_append_left (by omega)]
          exact e2
        · simp only [distributeNode]
          rw [List.getElem?_append_left (by omega)]
          exact e3
      · have hk' : k = n := by omega
        subst hk'
        refine ⟨(ma.cg.length : Int),
          (ma.cg.length : Int) + ((homeChargeGroups owner (k : Int)).length : Int),
          ((homeChargeGroups owner (k : Int)).length : Int), ?_, ?_, ?_, by ring⟩
        · simp only [distributeNode]
          rw [List.getElem?_append_left (by omega)]
          exact h4
        · simp only [distributeNode]
          rw [List.getElem?_append_right (by omega)]
          simp [h2]
        · simp only [distributeNode]
          rw [List.getElem?_append_right (by omega)]
          simp [h1]
    · simp only [distributeNode, List.sum_append, List.sum_cons, List.sum_nil, List.length_append,
        h6]
      push_cast
      ring
    · simp only [distributeNode, List.length_append]
      rw [h7, length_homeChargeGroups, countP_lt_succ]

/-- C13: the division that the Master Distributor makes over `nnodes` nodes, every charge group
being given to one of the nodes, has an `index` of `nnodes + 1` entries with
`index[n+1] - index[n] == ncg[n]` for every node `n`, and the sum of `ncg[n]` over all nodes is
the global number of charge groups, which is the number of entries of `cg` and
`index[nnodes] - index[0]`. -/
theorem master_division_conservation (nnodes : Nat) (owner : List Int)
    (hvalid : ∀ o ∈ owner, 0 ≤ o ∧ o < (nnodes : Int)) :
    (distributeChargeGroups nnodes owner).index.length = nnodes + 1 ∧
    (distributeChargeGroups nnodes owner).ncg.length = nnodes ∧
    (∀ n, n < nnodes → ∃ first last count,
      (distributeChargeGroups nnodes owner).index[n]? = some first ∧
      (distributeChargeGroups nnodes owner).index[n + 1]? = some last ∧
      (distributeChargeGroups nnodes owner).ncg[n]? = some count ∧ last - first = count) ∧
    (distributeChargeGroups nnodes owner).ncg.sum = (owner.length : Int) ∧
    (distributeChargeGroups nnodes owner).cg.length = owner.length ∧
    (∃ first last, (distributeChargeGroups nnodes owner).index[0]? = some first ∧
      (distributeChargeGroups nnodes owner).index[nnodes]? = some last ∧
      last - first = (owner.length : Int)) := by
  obtain ⟨h1, h2, h3, h4, h5, h6, h7⟩ := distributeChargeGroups_invariant owner nnodes
  have hall : owner.countP (fun o => decide (0 ≤ o ∧ o < (nnodes : Int))) = owner.length := by
    rw [List.countP_eq_length]
    intro o ho
    simpa using hvalid o ho
  have hcg : (distributeChargeGroups nnodes owner).cg.length = owner.length := by
    rw [h7, hall]
  refine ⟨h2, h1, h5, ?_, hcg, ⟨0, _, h3, h4, ?_⟩⟩
  · rw [h6, hcg]
  · rw [hcg]
    ring

/-- Witness of `master_division_conservation`: five charge groups over three nodes. -/
theorem master_division_conservation_witness :
    distributeChargeGroups 3 [2, 0, 2, 1, 0] = ⟨[2, 1, 2], [0, 2, 3, 5], [1, 4, 3, 0, 2]⟩ ∧
    (distributeChargeGroups 3 [2, 0, 2, 1, 0]).ncg.sum = (([2, 0, 2, 1, 0] : List Int).length : Int) :=
  ⟨by decide, (master_division_conservation 3 [2, 0, 2, 1, 0] (by decide)).2.2.2.1⟩

/-! ### C14 -/

/-- C14: the code at the failing input. For one device and `deviceId = -1`,
`getDeviceCompatibilityDescription` passes the test `deviceId >= size` and indexes the vector
outside its bounds (no description is returned); for the ids 0 and 1 it returns the description
of the status of the device and of `Nonexistent`. -/
theorem getDeviceCompatibilityDescription_negative_id
    (c_deviceStateString : DeviceStatus → String) :
    getDeviceCompatibilityDescription c_deviceStateString [⟨DeviceStatus.Compatible, 0⟩] (-1)
      = none ∧
    getDeviceCompatibilityDescription c_deviceStateString [⟨DeviceStatus.Compatible, 0⟩] 0
      = some (c_deviceStateString DeviceStatus.Compatible) ∧
    getDeviceCompatibilityDescription c_deviceStateString [⟨DeviceStatus.Compatible, 0⟩] 1
      = some (c_deviceStateString DeviceStatus.Nonexistent) := by
  refine ⟨?_, ?_, ?_⟩ <;> rfl

/-! ### C15 -/

/-- C15: the code at the failing inputs. With a Coulomb table already allocated,
`init_ewald_coulomb_force_table` does not call `destroyParamLookupTable` and two tables are
alive afterwards; with `nbp->coulomb_tab` null it calls `destroyParamLookupTable` on the null
pointer. In both cases `coulomb_tab_scale` is `tables.scale` and the new table holds all of
`tables.tableF`. -/
theorem init_ewald_coulomb_force_table_inverted_test :
    (init_ewald_coulomb_force_table ⟨2, [1, 2, 3]⟩ ⟨some 0, 1⟩ ⟨[(0, [9, 9])], 1, []⟩).2.destroyCalls
      = [] ∧
    (init_ewald_coulomb_force_table ⟨2, [1, 2, 3]⟩ ⟨some 0, 1⟩ ⟨[(0, [9, 9])], 1, []⟩).2.tables
      = [(0, [9, 9]), (1, [1, 2, 3])] ∧
    (init_ewald_coulomb_force_table ⟨2, [1, 2, 3]⟩ ⟨some 0, 1⟩ ⟨[(0, [9, 9])], 1, []⟩).1
      = ⟨some 1, 2⟩ ∧
    (init_ewald_coulomb_force_table ⟨2, [1, 2, 3]⟩ ⟨none, 1⟩ ⟨[], 0, []⟩).2.destroyCalls
      = [none] ∧
    (init_ewald_coulomb_force_table ⟨2, [1, 2, 3]⟩ ⟨none, 1⟩ ⟨[], 0, []⟩).2.tables
      = [(0, [1, 2, 3])] ∧
    (init_ewald_coulomb_force_table ⟨2, [1, 2, 3]⟩ ⟨none, 1⟩ ⟨[], 0, []⟩).1
      = ⟨some 0, 2⟩ := by
  decide

end Gromacs
